import Mathlib

/-!
Verification of the SezoAudioEngine core (playback/mixing/extraction engine)
against its natural-language specification.

Shallow embedding conventions:
* C++ `float`/`double` sample and parameter values are modelled as exact
  rationals (`ℚ`); the claims settled here concern control flow, counts,
  clamping and rounding structure, none of which depend on binary
  floating-point rounding at the scale of the stated counterexamples.
* `size_t`/`int64_t` are modelled as `ℕ`/`ℤ`; every narrowing cast that the
  code performs (`static_cast<size_t>(double)`, `static_cast<int64_t>(double)`)
  is modelled explicitly as truncation toward zero.
* Stateful C++ objects become Lean structures with explicit state passing.
* The external pitch/stretch primitive (Signalsmith Stretch) and the external
  trigonometric gain computations are out of scope per spec section 6; they are
  modelled as opaque-to-the-claims function parameters, while every frame
  count, buffer copy and control decision around them is traced from source.
-/

/-- `std::clamp(v, lo, hi)` from `<algorithm>`: `max lo (min v hi)`. -/
def clampQ (lo hi v : ℚ) : ℚ := max lo (min v hi)

theorem clampQ_le {lo hi v : ℚ} (h : lo ≤ hi) : clampQ lo hi v ≤ hi :=
  max_le h (min_le_right v hi)

theorem le_clampQ {lo hi v : ℚ} : lo ≤ clampQ lo hi v := le_max_left _ _

/-! ## Parameter setters (Track.cpp, TimeStretch.cpp, MultiTrackMixer.cpp)

Each setter stores the clamped value into an atomic; each getter loads the
stored value.  Defaults: `volume_{1.0f}`, `pan_{0.0f}` (Track.h),
`pitch_semitones_{0.0f}`, `stretch_factor_{1.0f}` (TimeStretch.h),
`master_volume_{1.0f}` (MultiTrackMixer.h). -/

/-- `Track::SetVolume`: `volume_.store(std::clamp(volume, 0.0f, 2.0f))`. -/
def Track.SetVolume (v : ℚ) : ℚ := clampQ 0 2 v

/-- `Track::SetPan`: `pan_.store(std::clamp(pan, -1.0f, 1.0f))`. -/
def Track.SetPan (p : ℚ) : ℚ := clampQ (-1) 1 p

/-- `TimeStretch::SetPitchSemitones`: `std::clamp(semitones, -12.0f, 12.0f)`. -/
def TimeStretch.SetPitchSemitones (s : ℚ) : ℚ := clampQ (-12) 12 s

/-- `TimeStretch::SetStretchFactor`: `std::clamp(factor, 0.5f, 2.0f)`. -/
def TimeStretch.SetStretchFactor (f : ℚ) : ℚ := clampQ (1/2) 2 f

/-- `MultiTrackMixer::SetMasterVolume`: `std::clamp(volume, 0.0f, 2.0f)`. -/
def MultiTrackMixer.SetMasterVolume (v : ℚ) : ℚ := clampQ 0 2 v

/-- The five clamped parameters stored by the engine (track volume and pan in
`Track`, pitch and stretch in `TimeStretch`, master volume in
`MultiTrackMixer`).  Getters return exactly these stored values. -/
structure EngineParams where
  volume : ℚ
  pan : ℚ
  pitch : ℚ
  stretch : ℚ
  masterVolume : ℚ
  deriving DecidableEq

/-- Default-constructed parameter values from the headers. -/
def EngineParams.init : EngineParams :=
  { volume := 1, pan := 0, pitch := 0, stretch := 1, masterVolume := 1 }

/-- One parameter-setter call, with its (unclamped) argument. -/
inductive ParamCmd where
  | setVolume (v : ℚ)
  | setPan (p : ℚ)
  | setPitchSemitones (s : ℚ)
  | setStretchFactor (f : ℚ)
  | setMasterVolume (v : ℚ)
  deriving DecidableEq

/-- Effect of one setter call on the stored parameters (each setter clamps on
write and touches only its own atomic). -/
def EngineParams.apply (p : EngineParams) (c : ParamCmd) : EngineParams :=
  match c with
  | .setVolume v => { p with volume := Track.SetVolume v }
  | .setPan q => { p with pan := Track.SetPan q }
  | .setPitchSemitones s => { p with pitch := TimeStretch.SetPitchSemitones s }
  | .setStretchFactor f => { p with stretch := TimeStretch.SetStretchFactor f }
  | .setMasterVolume v => { p with masterVolume := MultiTrackMixer.SetMasterVolume v }

/-- All five stored parameters are inside their documented ranges. -/
def EngineParams.InRange (p : EngineParams) : Prop :=
  0 ≤ p.volume ∧ p.volume ≤ 2 ∧
  -1 ≤ p.pan ∧ p.pan ≤ 1 ∧
  -12 ≤ p.pitch ∧ p.pitch ≤ 12 ∧
  1/2 ≤ p.stretch ∧ p.stretch ≤ 2 ∧
  0 ≤ p.masterVolume ∧ p.masterVolume ≤ 2

theorem EngineParams.apply_inRange (p : EngineParams) (c : ParamCmd)
    (h : p.InRange) : (p.apply c).InRange := by
  obtain ⟨h1, h2, h3, h4, h5, h6, h7, h8, h9, h10⟩ := h
  cases c <;>
    refine ⟨?_, ?_, ?_, ?_, ?_, ?_, ?_, ?_, ?_, ?_⟩ <;>
    first
      | assumption
      | exact le_clampQ
      | exact clampQ_le (by norm_num)

/-- **C7.** Every parameter setter clamps its argument on write: track volume
to `[0,2]`, pan to `[-1,1]`, pitch to `[-12,12]` semitones, stretch factor to
`[0.5,2.0]`, master volume to `[0,2]`.  Hence starting from the
default-constructed values, after any sequence of setter calls every stored
parameter (and so every getter result) lies inside its range. -/
theorem engineParams_always_inRange (cmds : List ParamCmd) :
    (cmds.foldl EngineParams.apply EngineParams.init).InRange := by
  have key : ∀ (l : List ParamCmd) (p : EngineParams), p.InRange →
      (l.foldl EngineParams.apply p).InRange := by
    intro l
    induction l with
    | nil => intro p hp; exact hp
    | cons c rest ih =>
        intro p hp
        exact ih (p.apply c) (EngineParams.apply_inRange p c hp)
  exact key cmds EngineParams.init (by unfold EngineParams.InRange EngineParams.init; norm_num)

/-! ## TimingManager (TimingManager.cpp lines 20-26) -/

/-- `static_cast<int64_t>(double)`: truncation toward zero. -/
def truncQ (q : ℚ) : ℤ := if 0 ≤ q then ⌊q⌋ else ⌈q⌉

/-- `TimingManager::SamplesToMs`:
`(static_cast<double>(samples) * 1000.0) / static_cast<double>(sample_rate_)`,
doubles modelled as exact rationals. -/
def TimingManager.SamplesToMs (rate : ℕ) (samples : ℤ) : ℚ :=
  (samples * 1000 : ℚ) / (rate : ℚ)

/-- `TimingManager::MsToSamples`:
`static_cast<int64_t>((ms * static_cast<double>(sample_rate_)) / 1000.0)`,
doubles modelled as exact rationals; the int64 cast truncates toward zero. -/
def TimingManager.MsToSamples (rate : ℕ) (ms : ℚ) : ℤ :=
  truncQ (ms * (rate : ℚ) / 1000)

/-- **C8 counterexample.**  At sample rate 44100 and input `ms = -1`, the
exact value of `ms·rate/1000` is `-44.1`; the code's truncation toward zero
returns `-44`, while `floor` as claimed would give `-45`. -/
theorem msToSamples_not_floor :
    TimingManager.MsToSamples 44100 (-1) = -44 ∧
    ⌊((-1 : ℚ) * (44100 : ℚ) / 1000)⌋ = -45 ∧
    TimingManager.MsToSamples 44100 (-1) ≠ ⌊((-1 : ℚ) * (44100 : ℚ) / 1000)⌋ := by
  have hceil : ⌈((-1 : ℚ) * (44100 : ℚ) / 1000)⌉ = -44 := by
    rw [Int.ceil_eq_iff]
    norm_num
  have hfloor : ⌊((-1 : ℚ) * (44100 : ℚ) / 1000)⌋ = -45 := by
    rw [Int.floor_eq_iff]
    norm_num
  have hcode : TimingManager.MsToSamples 44100 (-1) = -44 := by
    unfold TimingManager.MsToSamples truncQ
    rw [if_neg (by norm_num)]
    exact hceil
  exact ⟨hcode, hfloor, by rw [hcode, hfloor]; decide⟩

/-- **C8 (amended).**  `msToSamples(ms)` truncates `ms·rate/1000` toward zero,
which agrees with `floor(ms·rate/1000)` for every non-negative `ms`; and
`samplesToMs(s) = s·1000/rate` exactly. -/
theorem timingManager_conversions (rate : ℕ) (ms : ℚ) (s : ℤ) (h : 0 ≤ ms) :
    TimingManager.MsToSamples rate ms = ⌊ms * (rate : ℚ) / 1000⌋ ∧
    TimingManager.SamplesToMs rate s = (s * 1000 : ℚ) / (rate : ℚ) := by
  constructor
  · unfold TimingManager.MsToSamples truncQ
    have hq : (0 : ℚ) ≤ ms * (rate : ℚ) / 1000 := by positivity
    simp [hq]
  · rfl

/-- Witness for `timingManager_conversions` at rate 44100, `ms = 1`, `s = 5`. -/
theorem timingManager_conversions_witness :
    TimingManager.MsToSamples 44100 1 = ⌊(1 : ℚ) * (44100 : ℚ) / 1000⌋ ∧
    TimingManager.SamplesToMs 44100 5 = ((5 : ℤ) * 1000 : ℚ) / ((44100 : ℕ) : ℚ) :=
  timingManager_conversions 44100 1 5 (by norm_num)

/-! ## CircularBuffer (CircularBuffer.cpp lines 13-74)

The backing `float[]` store is modelled as a total function `ℕ → ℚ` whose
meaningful indices are those below `capacity`; the two sequential `memcpy`
chunks of `Write` (pre-wrap and post-wrap) are modelled as one sequential
per-element copy at indices `(write_pos + i) % capacity`, which writes exactly
the same cells in the same order. -/

structure CircularBuffer where
  buf : ℕ → ℚ
  capacity : ℕ
  writePos : ℕ
  readPos : ℕ

/-- `CircularBuffer::Available`: `write_idx - read_idx` when
`write_idx >= read_idx`, else `capacity - (read_idx - write_idx)`. -/
def CircularBuffer.Available (cb : CircularBuffer) : ℕ :=
  if cb.readPos ≤ cb.writePos then cb.writePos - cb.readPos
  else cb.capacity - (cb.readPos - cb.writePos)

/-- `CircularBuffer::FreeSpace`: `capacity - Available() - 1` (one slot kept
empty to distinguish full from empty). -/
def CircularBuffer.FreeSpace (cb : CircularBuffer) : ℕ :=
  cb.capacity - cb.Available - 1

/-- Sequential element-wise copy of `data` into the ring starting at index
`start`, wrapping modulo `C`: models the two `memcpy` chunks of
`CircularBuffer::Write`. -/
def copyInto (C : ℕ) (start : ℕ) (data : List ℚ) (buf : ℕ → ℚ) : ℕ → ℚ :=
  match data with
  | [] => buf
  | d :: rest => copyInto C (start + 1) rest (Function.update buf (start % C) d)

/-- `CircularBuffer::Write`: copies `min(count, FreeSpace())` samples starting
at `write_pos`, wrapping at capacity, then advances
`write_pos := (write_pos + to_write) % capacity`; returns the copy count.
When the copy count is zero it returns 0 without touching state. -/
def CircularBuffer.Write (cb : CircularBuffer) (data : List ℚ) :
    CircularBuffer × ℕ :=
  let toWrite := min data.length cb.FreeSpace
  if toWrite = 0 then (cb, 0)
  else
    ({ cb with
        buf := copyInto cb.capacity cb.writePos (data.take toWrite) cb.buf,
        writePos := (cb.writePos + toWrite) % cb.capacity },
     toWrite)

/-- `CircularBuffer::Read`: copies `min(count, Available())` samples starting
at `read_pos`, wrapping at capacity, then advances
`read_pos := (read_pos + to_read) % capacity`; returns the data read.
When the copy count is zero it returns 0 without touching state. -/
def CircularBuffer.Read (cb : CircularBuffer) (count : ℕ) :
    CircularBuffer × List ℚ :=
  let toRead := min count cb.Available
  if toRead = 0 then (cb, [])
  else
    ({ cb with readPos := (cb.readPos + toRead) % cb.capacity },
     (List.range toRead).map (fun i => cb.buf ((cb.readPos + i) % cb.capacity)))

/-- `CircularBuffer::Reset`: both indices back to 0. -/
def CircularBuffer.Reset (cb : CircularBuffer) : CircularBuffer :=
  { cb with writePos := 0, readPos := 0 }

/-- A freshly constructed `CircularBuffer(capacity)`:
`std::make_unique<float[]>(capacity)` value-initializes the store to zero. -/
def CircularBuffer.mk0 (C : ℕ) : CircularBuffer :=
  { buf := fun _ => 0, capacity := C, writePos := 0, readPos := 0 }

/-- Well-formedness: both indices strictly below capacity.  Holds initially
and is preserved by every operation (indices only ever assigned mod capacity). -/
def CircularBuffer.WF (cb : CircularBuffer) : Prop :=
  cb.writePos < cb.capacity ∧ cb.readPos < cb.capacity

instance (cb : CircularBuffer) : Decidable cb.WF := by
  unfold CircularBuffer.WF; infer_instance

/-- The FIFO abstraction of the ring: the queue of readable samples in read
order. -/
def CircularBuffer.contents (cb : CircularBuffer) : List ℚ :=
  (List.range cb.Available).map (fun i => cb.buf ((cb.readPos + i) % cb.capacity))

theorem CircularBuffer.avail_lt {cb : CircularBuffer} (h : cb.WF) :
    cb.Available < cb.capacity := by
  obtain ⟨hw, hr⟩ := h
  unfold CircularBuffer.Available
  split <;> omega

/-- `write_pos` always sits `Available` slots past `read_pos`, mod capacity. -/
theorem CircularBuffer.writePos_eq {cb : CircularBuffer} (h : cb.WF) :
    cb.writePos = (cb.readPos + cb.Available) % cb.capacity := by
  obtain ⟨hw, hr⟩ := h
  unfold CircularBuffer.Available
  split
  · rw [Nat.add_sub_cancel' (by assumption), Nat.mod_eq_of_lt hw]
  · have hcase : ¬ cb.readPos ≤ cb.writePos := by assumption
    have : cb.readPos + (cb.capacity - (cb.readPos - cb.writePos)) =
        cb.capacity + cb.writePos := by omega
    rw [this, Nat.add_mod_left, Nat.mod_eq_of_lt hw]

theorem mod_sum_cases {C : ℕ} (a b : ℕ) (ha : a < C) (hb : b ≤ C) :
    (a + b) % C = if a + b < C then a + b else a + b - C := by
  split
  · exact Nat.mod_eq_of_lt (by assumption)
  · have h1 : a + b ≥ C := by omega
    rw [Nat.mod_eq_sub_mod h1, Nat.mod_eq_of_lt (by omega)]

/-- Indices `(s + j1) % C` and `(s + j2) % C` are distinct when
`0 < j2 - j1 < C`. -/
theorem mod_shift_ne {C : ℕ} (s : ℕ) {j1 j2 : ℕ} (h12 : j1 < j2)
    (hlt : j2 - j1 < C) : (s + j1) % C ≠ (s + j2) % C := by
  intro heq
  have hmod : Nat.ModEq C (s + j1) (s + j2) := heq
  have hdvd : C ∣ (s + j2) - (s + j1) :=
    (Nat.modEq_iff_dvd' (by omega)).mp hmod
  have : (s + j2) - (s + j1) = j2 - j1 := by omega
  rw [this] at hdvd
  have := Nat.le_of_dvd (by omega) hdvd
  omega

theorem avail_update_write {C w r t : ℕ} (hw : w < C) (hr : r < C)
    (havail : (if r ≤ w then w - r else C - (r - w)) + t ≤ C - 1) :
    (if r ≤ (w + t) % C then (w + t) % C - r else C - (r - (w + t) % C)) =
    (if r ≤ w then w - r else C - (r - w)) + t := by
  have ht : t ≤ C := by split_ifs at havail <;> omega
  rw [mod_sum_cases w t hw ht]
  split_ifs at havail ⊢ <;> omega

theorem avail_update_read {C w r t : ℕ} (hw : w < C) (hr : r < C)
    (ht : t ≤ (if r ≤ w then w - r else C - (r - w))) :
    (if (r + t) % C ≤ w then w - (r + t) % C else C - ((r + t) % C - w)) =
    (if r ≤ w then w - r else C - (r - w)) - t := by
  have htC : t ≤ C := by split_ifs at ht <;> omega
  rw [mod_sum_cases r t hr htC]
  split_ifs at ht ⊢ <;> omega

theorem copyInto_of_ne {C : ℕ} (data : List ℚ) (start : ℕ) (buf : ℕ → ℚ) (i : ℕ)
    (h : ∀ j, j < data.length → (start + j) % C ≠ i) :
    copyInto C start data buf i = buf i := by
  induction data generalizing start buf with
  | nil => rfl
  | cons d rest ih =>
      rw [copyInto]
      rw [ih (start + 1) _ (fun j hj => by
        have hx := h (j + 1) (by simpa using Nat.succ_lt_succ hj)
        rwa [show start + (j + 1) = start + 1 + j by omega] at hx)]
      exact Function.update_noteq (Ne.symm (by simpa using h 0 (by simp))) d buf

theorem copyInto_get {C : ℕ} (data : List ℚ) (start : ℕ) (buf : ℕ → ℚ)
    (hlen : data.length ≤ C) (j : ℕ) (hj : j < data.length) :
    copyInto C start data buf ((start + j) % C) = data.getD j 0 := by
  induction data generalizing start buf j with
  | nil => simp at hj
  | cons d rest ih =>
      cases j with
      | zero =>
          rw [copyInto]
          rw [copyInto_of_ne rest (start + 1) _ _ (fun j' hj' => by
            have hne := @mod_shift_ne C start 0 (1 + j')
              (by omega) (by simp at hlen; omega)
            rw [show start + (1 + j') = start + 1 + j' by omega] at hne
            simpa using (Ne.symm hne))]
          simp
      | succ j'' =>
          rw [copyInto, show start + (j'' + 1) = start + 1 + j'' by omega]
          exact ih (start + 1) _ (by simp at hlen; omega) j'' (by simp at hj; omega)

theorem CircularBuffer.contents_Write {cb : CircularBuffer} (h : cb.WF)
    (data : List ℚ) :
    ((cb.Write data).1).contents =
      cb.contents ++ data.take (min data.length cb.FreeSpace) := by
  obtain ⟨hw, hr⟩ := h
  have hC : 0 < cb.capacity := by omega
  set C := cb.capacity with hCdef
  set w := cb.writePos with hwdef
  set r := cb.readPos with hrdef
  set t := min data.length cb.FreeSpace with htdef
  have htlen : t ≤ data.length := min_le_left _ _
  have htfree : t ≤ cb.FreeSpace := min_le_right _ _
  have havail : cb.Available + t ≤ C - 1 := by
    have := @CircularBuffer.avail_lt cb ⟨hw, hr⟩
    unfold CircularBuffer.FreeSpace at htfree
    omega
  by_cases ht0 : t = 0
  · unfold CircularBuffer.Write
    rw [← htdef, if_pos ht0, ht0]
    simp
  · unfold CircularBuffer.Write
    rw [← htdef, if_neg ht0]
    have hA' : CircularBuffer.Available
        { cb with buf := copyInto C w (data.take t) cb.buf,
                  writePos := (w + t) % C } = cb.Available + t := by
      show (if r ≤ (w + t) % C then (w + t) % C - r else C - (r - (w + t) % C)) = _
      rw [avail_update_write hw hr (by
        show (if r ≤ w then w - r else C - (r - w)) + t ≤ C - 1
        exact havail)]
      rfl
    unfold CircularBuffer.contents
    rw [hA']
    show (List.range (cb.Available + t)).map
        (fun i => copyInto C w (data.take t) cb.buf ((r + i) % C)) = _
    rw [List.range_add, List.map_append, List.map_map]
    congr 1
    · apply List.map_congr_left
      intro i hi
      have hi' : i < cb.Available := List.mem_range.mp hi
      apply copyInto_of_ne
      intro j hj
      have hjt : j < t := by simpa [htlen] using hj
      have hwpe : w = (r + cb.Available) % C := CircularBuffer.writePos_eq ⟨hw, hr⟩
      rw [hwpe, Nat.mod_add_mod, show r + cb.Available + j = r + (cb.Available + j) by omega]
      exact Ne.symm (mod_shift_ne r (by omega) (by omega))
    · apply List.ext_getElem
      · simp [htlen]
      · intro j hj1 hj2
        simp only [List.getElem_map, List.getElem_range, Function.comp]
        have hjt : j < t := by simpa [htlen] using hj1
        have hwpe : w = (r + cb.Available) % C := CircularBuffer.writePos_eq ⟨hw, hr⟩
        have hidx : (r + (cb.Available + j)) % C = (w + j) % C := by
          rw [hwpe, Nat.mod_add_mod, show r + cb.Available + j = r + (cb.Available + j) by omega]
        show copyInto C w (data.take t) cb.buf ((r + (cb.Available + j)) % C) = _
        rw [hidx, copyInto_get (data.take t) w cb.buf (by simp [htlen]; omega) j
          (by simp [htlen]; omega)]
        rw [List.getD_eq_getElem _ 0 (by simp [htlen]; omega)]

theorem CircularBuffer.read_val (cb : CircularBuffer) (n : ℕ) :
    (cb.Read n).2 = cb.contents.take (min n cb.Available) := by
  set t := min n cb.Available with htdef
  by_cases ht0 : t = 0
  · unfold CircularBuffer.Read
    rw [← htdef, if_pos ht0, ht0]
    simp
  · unfold CircularBuffer.Read
    rw [← htdef, if_neg ht0]
    unfold CircularBuffer.contents
    rw [← List.map_take, List.take_range, min_eq_left (min_le_right n _)]

theorem CircularBuffer.contents_Read {cb : CircularBuffer} (h : cb.WF) (n : ℕ) :
    ((cb.Read n).1).contents = cb.contents.drop (min n cb.Available) ∧
    ((cb.Read n).1).WF := by
  obtain ⟨hw, hr⟩ := h
  have hC : 0 < cb.capacity := by omega
  set C := cb.capacity with hCdef
  set w := cb.writePos with hwdef
  set r := cb.readPos with hrdef
  set t := min n cb.Available with htdef
  have htavail : t ≤ cb.Available := min_le_right _ _
  by_cases ht0 : t = 0
  · unfold CircularBuffer.Read
    rw [← htdef, if_pos ht0, ht0]
    simp [CircularBuffer.WF, hw, hr]
  · unfold CircularBuffer.Read
    rw [← htdef, if_neg ht0]
    have hA' : CircularBuffer.Available { cb with readPos := (r + t) % C } =
        cb.Available - t := by
      show (if (r + t) % C ≤ w then w - (r + t) % C else C - ((r + t) % C - w)) = _
      rw [avail_update_read hw hr (by
        show t ≤ (if r ≤ w then w - r else C - (r - w))
        exact htavail)]
      rfl
    constructor
    · unfold CircularBuffer.contents
      rw [hA']
      show (List.range (cb.Available - t)).map
          (fun i => cb.buf (((r + t) % C + i) % C)) = _
      have hsplit : cb.Available = t + (cb.Available - t) := by omega
      conv_rhs => rw [hsplit, List.range_add, List.map_append, List.drop_append_of_le_length (by simp)]
      rw [List.drop_of_length_le (by simp)]
      rw [List.nil_append, List.map_map]
      apply List.map_congr_left
      intro i _
      simp only [Function.comp]
      rw [Nat.mod_add_mod, show r + t + i = r + (t + i) by omega]
    · exact ⟨hw, Nat.mod_lt _ hC⟩

/-- **C2.** For every well-formed CircularBuffer of capacity `C ≥ 1`:
`Available() + FreeSpace() = C - 1`; `Write(data, n)` copies exactly
`min(n, C - available - 1)` samples and `Read(data, n)` copies exactly
`min(n, available)` samples, wrapping at capacity; written data round-trips in
FIFO order across wraparound (`Write` appends the copied prefix to the
readable queue, `Read` takes from its front); and well-formedness — hence the
invariant — is preserved by every operation, holding initially and after
`Reset`. -/
theorem circularBuffer_fifo (cb : CircularBuffer) (data : List ℚ) (n : ℕ)
    (h : cb.WF) :
    cb.Available + cb.FreeSpace = cb.capacity - 1 ∧
    (cb.Write data).2 = min data.length (cb.capacity - cb.Available - 1) ∧
    (cb.Read n).2.length = min n cb.Available ∧
    ((cb.Write data).1).contents =
      cb.contents ++ data.take (min data.length cb.FreeSpace) ∧
    (cb.Read n).2 = cb.contents.take (min n cb.Available) ∧
    ((cb.Read n).1).contents = cb.contents.drop (min n cb.Available) ∧
    ((cb.Write data).1).WF ∧ ((cb.Read n).1).WF ∧
    cb.Reset.WF ∧ (CircularBuffer.mk0 cb.capacity).WF := by
  have hC : 0 < cb.capacity := by
    obtain ⟨hw, _⟩ := h
    omega
  have hinv : cb.Available + cb.FreeSpace = cb.capacity - 1 := by
    have := CircularBuffer.avail_lt h
    unfold CircularBuffer.FreeSpace
    omega
  have hsnd : (cb.Write data).2 = min data.length cb.FreeSpace := by
    by_cases h0 : min data.length cb.FreeSpace = 0
    · simp [CircularBuffer.Write, h0]
    · simp [CircularBuffer.Write, h0]
  have hWFw : ((cb.Write data).1).WF := by
    by_cases h0 : min data.length cb.FreeSpace = 0
    · simpa [CircularBuffer.Write, h0] using h
    · simp only [CircularBuffer.Write]
      rw [if_neg h0]
      exact ⟨Nat.mod_lt _ hC, h.2⟩
  have hrdlen : (cb.Read n).2.length = min n cb.Available := by
    rw [cb.read_val n]
    have hlen : cb.contents.length = cb.Available := by
      unfold CircularBuffer.contents
      simp
    rw [List.length_take, hlen, min_comm (min n cb.Available) cb.Available]
    omega
  exact ⟨hinv, hsnd, hrdlen, CircularBuffer.contents_Write h data, cb.read_val n,
    (CircularBuffer.contents_Read h n).1, hWFw, (CircularBuffer.contents_Read h n).2,
    ⟨hC, hC⟩, ⟨hC, hC⟩⟩

/-- The concrete buffer used to witness `circularBuffer_fifo`: capacity 4,
indices wrapped so that one readable sample crosses the wrap point. -/
def cbWitness : CircularBuffer :=
  { buf := fun _ => 0, capacity := 4, writePos := 0, readPos := 3 }

/-- Witness for `circularBuffer_fifo` at `cbWitness`, writing three samples. -/
theorem circularBuffer_fifo_witness :
    cbWitness.WF ∧
    cbWitness.Available + cbWitness.FreeSpace = 4 - 1 ∧
    (cbWitness.Write [1, 2, 3]).2 = min 3 (4 - cbWitness.Available - 1) :=
  ⟨by decide, (circularBuffer_fifo cbWitness [1, 2, 3] 2 (by decide)).1,
   (circularBuffer_fifo cbWitness [1, 2, 3] 2 (by decide)).2.1⟩

/-! ## Track::ReadSamples (Track.cpp lines 89-191) and TimeStretch::Process
(TimeStretch.cpp lines 81-173)

The external SignalsmithStretch primitive and the `std::cos`/`std::sin` gain
computations are abstracted as function parameters (`prim`, `cosg`, `sing`);
every branch, count and buffer operation around them is traced from source.
`cosg pan` stands for `cos((pan + 1) * 0.25 * pi)` and `sing pan` for
`sin((pan + 1) * 0.25 * pi)`. -/

/-- `static_cast<size_t>(double)` for the non-negative values arising in the
stretch-demand computation: truncation toward zero, i.e. `floor` there.
(A negative argument would be undefined behaviour in C++; totalized as 0.) -/
def sizeTCastQ (q : ℚ) : ℕ := ⌊q⌋.toNat

/-- `TimeStretch::IsActive`:
`std::abs(pitch) > 0.01f || std::abs(stretch - 1.0f) > 0.01f`. -/
def TimeStretch.IsActive (pitch stretch : ℚ) : Bool :=
  decide ((1/100 : ℚ) < |pitch|) || decide ((1/100 : ℚ) < |stretch - 1|)

/-- `TimeStretch::Process`.  `prim input inFrames outFrames i` abstracts the
interleaved output sample the de-interleave / `SignalsmithStretch::process` /
re-interleave sequence produces at index `i`; the wrapper always writes
exactly `output_frames` frames when it processes.  The copy path (inactive
effects or unsupported channel count) copies `min(input_frames,
output_frames)` frames and zero-fills the rest. -/
def TimeStretch.Process (prim : List ℚ → ℕ → ℕ → ℕ → ℚ)
    (channels : ℕ) (pitch stretch : ℚ) (input : List ℚ)
    (input_frames output_frames : ℕ) : List ℚ :=
  if output_frames = 0 then []
  else if input_frames = 0 then List.replicate (output_frames * channels) 0
  else if channels ≠ 1 ∧ channels ≠ 2 then
    let frames_to_copy := min input_frames output_frames
    input.take (frames_to_copy * channels) ++
      List.replicate ((output_frames - frames_to_copy) * channels) 0
  else if TimeStretch.IsActive pitch stretch = false then
    let frames_to_copy := min input_frames output_frames
    input.take (frames_to_copy * channels) ++
      List.replicate ((output_frames - frames_to_copy) * channels) 0
  else
    (List.range (output_frames * channels)).map (prim input input_frames output_frames)

/-- Volume/pan application: Track.cpp lines 170-185 (identical in
ExtractionPipeline.cpp `ApplyVolumePan`, lines 114-127).  Stereo multiplies
the first `gframes` frames by the equal-power gains; mono multiplies the first
`gframes` samples by `volume` when `volume != 1.0f`. -/
def applyVolumePan (cosg sing : ℚ → ℚ) (channels : ℕ) (vol pan : ℚ)
    (gframes : ℕ) (out : List ℚ) : List ℚ :=
  if channels = 2 then
    let left_gain := vol * cosg pan
    let right_gain := vol * sing pan
    out.mapIdx (fun i x =>
      if i < gframes * 2 then (if i % 2 = 0 then x * left_gain else x * right_gain) else x)
  else if channels = 1 then
    if vol = 1 then out
    else out.mapIdx (fun i x => if i < gframes then x * vol else x)
  else out

/-- The input-frame demand of the effect path (Track.cpp lines 108-113):
`requested_input = frames * stretch + stretch_input_fraction_` as a double,
`input_frames = static_cast<size_t>(requested_input)` (truncation), the new
carried fraction `requested_input - input_frames` stored before the
`if (input_frames < 1) input_frames = 1` clamp.  Returns (clamped input
frames, new carried fraction). -/
def Track.stretchInputDemand (frames : ℕ) (stretch fraction : ℚ) : ℕ × ℚ :=
  let requested_input : ℚ := (frames : ℚ) * stretch + fraction
  let input_frames := sizeTCastQ requested_input
  let fraction' := requested_input - (input_frames : ℚ)
  ((if input_frames < 1 then 1 else input_frames), fraction')

/-- The identical input-frame demand computation of the offline render path
(ExtractionPipeline.cpp `RenderOfflineTrack`, lines 162-169). -/
def ExtractionPipeline.offlineStretchInputDemand (frames : ℕ)
    (stretch fraction : ℚ) : ℕ × ℚ :=
  let requested_input : ℚ := (frames : ℚ) * stretch + fraction
  let input_frames := sizeTCastQ requested_input
  let fraction' := requested_input - (input_frames : ℚ)
  ((if input_frames < 1 then 1 else input_frames), fraction')

/-- State of one `Track` as read and written by `Track::ReadSamples` and by
the mixer: the atomics, the decoder format's channel count, the start offset
and the ring buffer. -/
structure TrackState where
  isLoaded : Bool
  muted : Bool
  solo : Bool
  channels : ℕ
  volume : ℚ
  pan : ℚ
  pitch : ℚ
  stretch : ℚ
  stretchInputFraction : ℚ
  startTimeSamples : ℤ
  buffer : CircularBuffer

/-- Result of `Track::ReadSamples`: the samples written to `output`, the
returned frame count, and the updated track state. -/
structure ReadResult where
  output : List ℚ
  ret : ℕ
  state : TrackState

/-- `Track::ReadSamples(output, frames)` (Track.cpp lines 89-191).
Muted or unloaded: zero-fill `frames * channels` (channels defaulting to 2
when no decoder) and return `frames`, touching nothing.  Effect path (time
stretcher active, 1 or 2 channels): compute the input demand with carried
fraction, read that many samples from the ring buffer, zero-pad on underrun,
run the effect primitive to produce exactly `frames` frames, return `frames`.
Direct path: read `frames * channels` samples, zero-pad on underrun, return
`samples_read / channels` whole frames.  Volume/pan applied to the processed
frames in both unmuted paths. -/
def Track.ReadSamples (cosg sing : ℚ → ℚ) (prim : List ℚ → ℕ → ℕ → ℕ → ℚ)
    (t : TrackState) (frames : ℕ) : ReadResult :=
  if !t.isLoaded || t.muted then
    let channels := if t.isLoaded then t.channels else 2
    { output := List.replicate (frames * channels) 0, ret := frames, state := t }
  else
    let channels := t.channels
    let vol := t.volume
    let pan_value := t.pan
    let use_time_stretch :=
      TimeStretch.IsActive t.pitch t.stretch && (channels == 1 || channels == 2)
    if use_time_stretch then
      let demand := Track.stretchInputDemand frames t.stretch t.stretchInputFraction
      let input_frames := demand.1
      let input_samples := input_frames * channels
      let rd := t.buffer.Read input_samples
      let input := rd.2 ++ List.replicate (input_samples - rd.2.length) 0
      let out0 := TimeStretch.Process prim channels t.pitch t.stretch input input_frames frames
      let out := applyVolumePan cosg sing channels vol pan_value frames out0
      { output := out, ret := frames,
        state := { t with buffer := rd.1, stretchInputFraction := demand.2 } }
    else
      let samples_needed := frames * channels
      let rd := t.buffer.Read samples_needed
      let out0 := rd.2 ++ List.replicate (samples_needed - rd.2.length) 0
      let frames_processed := rd.2.length / channels
      let out := applyVolumePan cosg sing channels vol pan_value frames_processed out0
      { output := out, ret := frames_processed,
        state := { t with buffer := rd.1, stretchInputFraction := 0 } }

theorem CircularBuffer.read_len (cb : CircularBuffer) (n : ℕ) :
    (cb.Read n).2.length = min n cb.Available := by
  rw [cb.read_val n, List.length_take]
  have hlen : cb.contents.length = cb.Available := by
    unfold CircularBuffer.contents
    simp
  rw [hlen, min_comm (min n cb.Available) cb.Available]
  have := min_le_right n cb.Available
  omega

theorem applyVolumePan_length (cosg sing : ℚ → ℚ) (channels : ℕ) (vol pan : ℚ)
    (gframes : ℕ) (out : List ℚ) :
    (applyVolumePan cosg sing channels vol pan gframes out).length = out.length := by
  unfold applyVolumePan
  split_ifs <;> simp

theorem getD_replicate_zero (n i : ℕ) :
    (List.replicate n (0 : ℚ)).getD i 0 = 0 := by
  by_cases h : i < n
  · rw [List.getD_eq_getElem _ _ (by simpa using h)]
    simp
  · rw [List.getD_eq_default _ _ (by simpa using h)]

theorem mapIdx_getD_of_lt (l : List ℚ) (f : ℕ → ℚ → ℚ) (i : ℕ)
    (h : i < l.length) :
    (l.mapIdx f).getD i 0 = f i (l.getD i 0) := by
  rw [List.getD_eq_getElem _ _ (by simpa using h), List.getD_eq_getElem _ _ h]
  simp

/-- The gain stage leaves every sample at index `≥ gframes * channels`
untouched. -/
theorem applyVolumePan_getD_of_ge (cosg sing : ℚ → ℚ) (channels : ℕ)
    (vol pan : ℚ) (gframes : ℕ) (out : List ℚ) (i : ℕ)
    (hi : gframes * channels ≤ i) :
    (applyVolumePan cosg sing channels vol pan gframes out).getD i 0 =
      out.getD i 0 := by
  unfold applyVolumePan
  by_cases hil : i < out.length
  · split_ifs with h2 h1 hv
    · subst h2
      rw [mapIdx_getD_of_lt _ _ _ hil, if_neg (by omega)]
    · rfl
    · subst h1
      rw [mapIdx_getD_of_lt _ _ _ hil, if_neg (by omega)]
    · rfl
  · have hlen : ∀ l' : List ℚ, l'.length = out.length → l'.getD i 0 = out.getD i 0 := by
      intro l' hl'
      rw [List.getD_eq_default _ _ (by omega), List.getD_eq_default _ _ (by omega)]
    split_ifs <;> [skip; rfl; skip; rfl] <;> exact hlen _ (by simp)

/-- **C4.** For a loaded, muted track, `ReadSamples(out, frames)` writes
exactly `frames * channels` zero samples, returns `frames`, and leaves the
entire track state — in particular the ring buffer's read position —
untouched, so clearing the mute flag resumes from the stream position where
muting began, with no implicit rewind. -/
theorem track_muted_readSamples (cosg sing : ℚ → ℚ)
    (prim : List ℚ → ℕ → ℕ → ℕ → ℚ) (t : TrackState) (frames : ℕ)
    (hl : t.isLoaded = true) (hm : t.muted = true) :
    Track.ReadSamples cosg sing prim t frames =
      { output := List.replicate (frames * t.channels) 0, ret := frames,
        state := t } := by
  unfold Track.ReadSamples
  rw [hl, hm]
  simp

/-- Concrete muted track used to witness `track_muted_readSamples`. -/
def mutedTrackWitness : TrackState :=
  { isLoaded := true, muted := true, solo := false, channels := 2, volume := 1,
    pan := 0, pitch := 0, stretch := 1, stretchInputFraction := 0,
    startTimeSamples := 0, buffer := cbWitness }

/-- Witness for `track_muted_readSamples` at a concrete muted track. -/
theorem track_muted_readSamples_witness :
    mutedTrackWitness.isLoaded = true ∧ mutedTrackWitness.muted = true ∧
    Track.ReadSamples (fun _ => 1) (fun _ => 1) (fun _ _ _ _ => 0)
        mutedTrackWitness 3 =
      { output := List.replicate (3 * 2) 0, ret := 3, state := mutedTrackWitness } :=
  ⟨rfl, rfl,
   track_muted_readSamples (fun _ => 1) (fun _ => 1) (fun _ _ _ _ => 0)
     mutedTrackWitness 3 rfl rfl⟩

/-- **C10.** On a loaded, unmuted track with the effect frame inactive,
`ReadSamples` always writes exactly `frames * channels` samples (zero-padding
what the ring buffer could not supply), but returns the number of whole frames
actually read from the buffer — strictly less than `frames` on underrun —
unlike the muted path, which always returns the requested count. -/
theorem track_direct_readSamples (cosg sing : ℚ → ℚ)
    (prim : List ℚ → ℕ → ℕ → ℕ → ℚ) (t : TrackState) (frames : ℕ)
    (hl : t.isLoaded = true) (hm : t.muted = false)
    (hact : TimeStretch.IsActive t.pitch t.stretch = false)
    (hch : 1 ≤ t.channels) :
    (Track.ReadSamples cosg sing prim t frames).output.length =
      frames * t.channels ∧
    (Track.ReadSamples cosg sing prim t frames).ret =
      min (frames * t.channels) t.buffer.Available / t.channels ∧
    (t.buffer.Available < frames * t.channels →
      (Track.ReadSamples cosg sing prim t frames).ret < frames) ∧
    (∀ i, min (frames * t.channels) t.buffer.Available ≤ i →
      (Track.ReadSamples cosg sing prim t frames).output.getD i 0 = 0) ∧
    (∀ t' : TrackState, t'.isLoaded = true → t'.muted = true →
      (Track.ReadSamples cosg sing prim t' frames).ret = frames) := by
  have hcond : (!t.isLoaded || t.muted) = false := by rw [hl, hm]; rfl
  have hts : (TimeStretch.IsActive t.pitch t.stretch &&
      (t.channels == 1 || t.channels == 2)) = false := by
    rw [hact]
    rfl
  simp only [Track.ReadSamples, hcond, hts, Bool.false_eq_true, if_false]
  set sr := (t.buffer.Read (frames * t.channels)).2.length with hsr
  have hsrval : sr = min (frames * t.channels) t.buffer.Available :=
    t.buffer.read_len (frames * t.channels)
  have hsrle : sr ≤ frames * t.channels := by
    rw [hsrval]
    exact min_le_left _ _
  refine ⟨?_, ?_, ?_, ?_, ?_⟩
  · rw [applyVolumePan_length]
    simp only [List.length_append, List.length_replicate]
    omega
  · rw [hsrval]
  · intro hund
    rw [Nat.div_lt_iff_lt_mul (by omega)]
    have : sr = t.buffer.Available := by
      rw [hsrval]
      omega
    omega
  · intro i hi
    rw [← hsrval] at hi
    have hfp : sr / t.channels * t.channels ≤ sr := Nat.div_mul_le_self _ _
    rw [applyVolumePan_getD_of_ge _ _ _ _ _ _ _ _ (by omega)]
    by_cases hbig : i < frames * t.channels
    · rw [List.getD_append_right _ _ _ _ (by exact hi)]
      exact getD_replicate_zero _ _
    · rw [List.getD_eq_default]
      simp only [List.length_append, List.length_replicate]
      omega
  · intro t' hl' hm'
    simp [Track.ReadSamples, hl', hm']

/-- Concrete track for the `track_direct_readSamples` witness: stereo, ring
buffer holding 3 samples (1 whole frame) while 2 frames are requested. -/
def directTrackWitness : TrackState :=
  { isLoaded := true, muted := false, solo := false, channels := 2, volume := 1,
    pan := 0, pitch := 0, stretch := 1, stretchInputFraction := 0,
    startTimeSamples := 0,
    buffer := { buf := fun _ => 0, capacity := 8, writePos := 3, readPos := 0 } }

/-- Witness for `track_direct_readSamples`: requesting 2 stereo frames from a
buffer holding 3 samples writes 4 samples but returns 1 frame. -/
theorem track_direct_readSamples_witness :
    directTrackWitness.isLoaded = true ∧ directTrackWitness.muted = false ∧
    TimeStretch.IsActive directTrackWitness.pitch directTrackWitness.stretch = false ∧
    1 ≤ directTrackWitness.channels ∧
    (Track.ReadSamples (fun _ => 1) (fun _ => 1) (fun _ _ _ _ => 0)
        directTrackWitness 2).output.length = 2 * 2 ∧
    (Track.ReadSamples (fun _ => 1) (fun _ => 1) (fun _ _ _ _ => 0)
        directTrackWitness 2).ret = min (2 * 2) 3 / 2 :=
  ⟨rfl, rfl, by norm_num [TimeStretch.IsActive, directTrackWitness], by decide,
   (track_direct_readSamples (fun _ => 1) (fun _ => 1) (fun _ _ _ _ => 0)
      directTrackWitness 2 rfl rfl
      (by norm_num [TimeStretch.IsActive, directTrackWitness]) (by decide)).1,
   (track_direct_readSamples (fun _ => 1) (fun _ => 1) (fun _ _ _ _ => 0)
      directTrackWitness 2 rfl rfl
      (by norm_num [TimeStretch.IsActive, directTrackWitness]) (by decide)).2.1⟩

theorem if_lt_one_eq_max (a : ℕ) : (if a < 1 then 1 else a) = max 1 a := by
  split <;> omega

theorem stretchInputDemand_eq (frames : ℕ) (stretch fraction : ℚ)
    (h : 0 ≤ (frames : ℚ) * stretch + fraction) :
    Track.stretchInputDemand frames stretch fraction =
      (max 1 ⌊(frames : ℚ) * stretch + fraction⌋.toNat,
       Int.fract ((frames : ℚ) * stretch + fraction)) := by
  have hnn : 0 ≤ ⌊(frames : ℚ) * stretch + fraction⌋ := Int.floor_nonneg.mpr h
  have h0 : ((⌊(frames : ℚ) * stretch + fraction⌋.toNat : ℕ) : ℚ) =
      ((⌊(frames : ℚ) * stretch + fraction⌋ : ℤ) : ℚ) := by
    exact_mod_cast congrArg (fun z : ℤ => (z : ℚ)) (Int.toNat_of_nonneg hnn)
  unfold Track.stretchInputDemand sizeTCastQ
  dsimp only
  rw [if_lt_one_eq_max, Int.fract, h0]

theorem TimeStretch.Process_length_active (prim : List ℚ → ℕ → ℕ → ℕ → ℚ)
    (channels : ℕ) (pitch stretch : ℚ) (input : List ℚ) (inF outF : ℕ)
    (hin : inF ≠ 0) (hch : channels = 1 ∨ channels = 2)
    (hact : TimeStretch.IsActive pitch stretch = true) :
    (TimeStretch.Process prim channels pitch stretch input inF outF).length =
      outF * channels := by
  unfold TimeStretch.Process
  by_cases h0 : outF = 0
  · rw [if_pos h0, h0]
    simp
  · rw [if_neg h0, if_neg hin, if_neg (by rcases hch with h | h <;> simp [h]),
      if_neg (by simp [hact])]
    simp

theorem isActive_seven_fifths : TimeStretch.IsActive (0 : ℚ) (7/5) = true := by
  unfold TimeStretch.IsActive
  rw [show |(0 : ℚ)| = 0 from abs_zero, show (7 : ℚ)/5 - 1 = 2/5 by norm_num,
    abs_of_nonneg (by norm_num : (0 : ℚ) ≤ 2/5)]
  simp only [Bool.or_eq_true, decide_eq_true_eq]
  right
  norm_num

/-- Concrete active-stretch track: mono, `stretch = 7/5`, carried fraction 0,
ring buffer holding 10 samples. -/
def stretchTrackCounterexample : TrackState :=
  { isLoaded := true, muted := false, solo := false, channels := 1, volume := 1,
    pan := 0, pitch := 0, stretch := 7/5, stretchInputFraction := 0,
    startTimeSamples := 0,
    buffer := { buf := fun _ => 0, capacity := 16, writePos := 10, readPos := 0 } }

/-- **C1 counterexample.**  With an active effect frame (`stretch = 7/5`),
`frames = 2` and carried fraction 0, the code truncates
`frames * stretch = 14/5` to 2 input frames, while `round(14/5) = 3`; so a
`ReadSamples` call on a buffer holding 10 samples leaves 8 available, not the
7 the claimed `round` formula would leave. -/
theorem track_stretch_round_counterexample :
    TimeStretch.IsActive stretchTrackCounterexample.pitch
      stretchTrackCounterexample.stretch = true ∧
    (Track.stretchInputDemand 2 (7/5) 0).1 = 2 ∧
    round ((2 : ℚ) * (7/5) + 0) = 3 ∧
    ((Track.stretchInputDemand 2 (7/5) 0).1 : ℤ) ≠ round ((2 : ℚ) * (7/5) + 0) ∧
    stretchTrackCounterexample.buffer.Available = 10 ∧
    ((Track.ReadSamples (fun _ => 1) (fun _ => 1) (fun _ _ _ _ => 0)
        stretchTrackCounterexample 2).state.buffer).Available = 8 ∧
    (8 : ℕ) ≠ 10 - 3 := by
  have hfl : (⌊((2 : ℕ) : ℚ) * (7/5) + 0⌋ : ℤ) = 2 := by
    norm_num [Int.floor_eq_iff]
  have hdem : Track.stretchInputDemand 2 (7/5) 0 = (2, 4/5) := by
    rw [stretchInputDemand_eq 2 (7/5) 0 (by norm_num), Int.fract, hfl]
    refine Prod.ext (by decide) (by push_cast; norm_num)
  have hround : round ((2 : ℚ) * (7/5) + 0) = 3 := by
    rw [round_eq]
    norm_num [Int.floor_eq_iff]
  refine ⟨isActive_seven_fifths, by rw [hdem], hround, ?_, by decide, ?_, by decide⟩
  · rw [hdem, hround]
    decide
  · have hread : (Track.ReadSamples (fun _ => 1) (fun _ => 1) (fun _ _ _ _ => 0)
        stretchTrackCounterexample 2).state.buffer =
        (stretchTrackCounterexample.buffer.Read 2).1 := by
      simp [Track.ReadSamples, stretchTrackCounterexample, isActive_seven_fifths,
        hdem]
    rw [hread]
    decide

/-- **C1 (amended).**  On an active effect frame, the input demand is
`max(1, trunc(frames * stretchFactor + carriedFraction))` — truncation
(floor), not rounding to nearest — with the fractional remainder
`fract(frames * stretchFactor + carriedFraction)` carried into the next call
(it always stays in `[0, 1)`, bounding long-run drift); that many frames are
requested from the stream buffer (zero-padded on underrun), the effect
primitive produces exactly `frames` output frames and `frames` is returned;
and the offline extraction render path computes its input demand by the
identical function. -/
theorem track_stretch_input_demand (cosg sing : ℚ → ℚ)
    (prim : List ℚ → ℕ → ℕ → ℕ → ℚ) (t : TrackState) (frames : ℕ)
    (hl : t.isLoaded = true) (hm : t.muted = false)
    (hact : TimeStretch.IsActive t.pitch t.stretch = true)
    (hch : t.channels = 1 ∨ t.channels = 2)
    (hstr : 0 ≤ t.stretch) (hfr : 0 ≤ t.stretchInputFraction) :
    (Track.ReadSamples cosg sing prim t frames).state.buffer =
      (t.buffer.Read
        ((max 1 ⌊(frames : ℚ) * t.stretch + t.stretchInputFraction⌋.toNat) *
          t.channels)).1 ∧
    (Track.ReadSamples cosg sing prim t frames).state.stretchInputFraction =
      Int.fract ((frames : ℚ) * t.stretch + t.stretchInputFraction) ∧
    0 ≤ (Track.ReadSamples cosg sing prim t frames).state.stretchInputFraction ∧
    (Track.ReadSamples cosg sing prim t frames).state.stretchInputFraction < 1 ∧
    (Track.ReadSamples cosg sing prim t frames).output.length =
      frames * t.channels ∧
    (Track.ReadSamples cosg sing prim t frames).ret = frames ∧
    Track.stretchInputDemand = ExtractionPipeline.offlineStretchInputDemand := by
  have hreq : 0 ≤ (frames : ℚ) * t.stretch + t.stretchInputFraction := by
    have : 0 ≤ (frames : ℚ) * t.stretch := by positivity
    linarith
  have hcond : (!t.isLoaded || t.muted) = false := by rw [hl, hm]; rfl
  have huse : (TimeStretch.IsActive t.pitch t.stretch &&
      (t.channels == 1 || t.channels == 2)) = true := by
    rw [hact]
    rcases hch with h | h <;> simp [h]
  have hdem := stretchInputDemand_eq frames t.stretch t.stretchInputFraction hreq
  simp only [Track.ReadSamples, hcond, Bool.false_eq_true, if_false, huse,
    if_true, hdem]
  refine ⟨by trivial, by trivial, Int.fract_nonneg _, Int.fract_lt_one _, ?_,
    by trivial, by trivial⟩
  rw [applyVolumePan_length,
    TimeStretch.Process_length_active _ _ _ _ _ _ _ (by positivity) hch hact]

/-- Witness for `track_stretch_input_demand` at `stretchTrackCounterexample`
with 2 output frames requested. -/
theorem track_stretch_input_demand_witness :
    stretchTrackCounterexample.isLoaded = true ∧
    stretchTrackCounterexample.muted = false ∧
    TimeStretch.IsActive stretchTrackCounterexample.pitch
      stretchTrackCounterexample.stretch = true ∧
    (stretchTrackCounterexample.channels = 1 ∨
      stretchTrackCounterexample.channels = 2) ∧
    (0 : ℚ) ≤ stretchTrackCounterexample.stretch ∧
    (0 : ℚ) ≤ stretchTrackCounterexample.stretchInputFraction ∧
    (Track.ReadSamples (fun _ => 1) (fun _ => 1) (fun _ _ _ _ => 0)
        stretchTrackCounterexample 2).ret = 2 :=
  ⟨rfl, rfl, isActive_seven_fifths, Or.inl rfl,
   by norm_num [stretchTrackCounterexample], le_refl 0,
   (track_stretch_input_demand (fun _ => 1) (fun _ => 1) (fun _ _ _ _ => 0)
      stretchTrackCounterexample 2 rfl rfl isActive_seven_fifths
      (Or.inl rfl) (by norm_num [stretchTrackCounterexample])
      (le_refl 0)).2.2.2.2.2.1⟩

/-! ## MultiTrackMixer::Mix (MultiTrackMixer.cpp lines 50-151) -/

/-- `has_solo` scan of `MultiTrackMixer::Mix` (lines 59-68): true iff any
track in the mixer — loaded or not — has its solo flag set. -/
def MultiTrackMixer.hasSolo (tracks : List TrackState) : Bool :=
  tracks.any (fun t => t.solo)

/-- Element-wise accumulation `output[i] += contribution[i]`. -/
def zipAddQ (a b : List ℚ) : List ℚ := List.zipWith (fun x y => x + y) a b

/-- Skip conditions of the per-track loop in `MultiTrackMixer::Mix`
(lines 73-84): a track is mixed iff it is loaded, passes the solo gate
(not skipped by `has_solo && !solo`), and is not muted. -/
def MultiTrackMixer.mixEligible (has_solo loaded solo muted : Bool) : Bool :=
  loaded && (!has_solo || solo) && !muted

/-- Skip conditions of the per-track render loop in
`ExtractionPipeline::ExtractMixedTracks` (lines 500-509 and 543-552): a track
is rendered iff its decoder exists, it passes the same solo gate, and it is
not muted. -/
def ExtractionPipeline.mixedEligible (has_solo hasDecoder solo muted : Bool) : Bool :=
  hasDecoder && (!has_solo || solo) && !muted

/-- One iteration of the per-track loop of `MultiTrackMixer::Mix`
(lines 72-137): the stereo contribution this track adds into `output` (zero
outside the rendered region, mono duplicated to both channels) paired with
the track's updated state.  A skipped track contributes zero and is not read. -/
def MultiTrackMixer.trackMixStep (cosg sing : ℚ → ℚ)
    (prim : List ℚ → ℕ → ℕ → ℕ → ℚ) (has_solo : Bool) (frames : ℕ)
    (timeline_start_sample : ℤ) (t : TrackState) : List ℚ × TrackState :=
  if !t.isLoaded then (List.replicate (frames * 2) 0, t)
  else if has_solo && !t.solo then (List.replicate (frames * 2) 0, t)
  else if t.muted then (List.replicate (frames * 2) 0, t)
  else
    let track_frame := timeline_start_sample - t.startTimeSamples
    if track_frame < 0 ∧ track_frame + (frames : ℤ) ≤ 0 then
      (List.replicate (frames * 2) 0, t)
    else
      let offset_frames : ℕ := if track_frame < 0 then (-track_frame).toNat else 0
      let frames_to_read : ℕ := if frames ≤ offset_frames then 0 else frames - offset_frames
      if frames_to_read = 0 then (List.replicate (frames * 2) 0, t)
      else if t.channels = 1 then
        let r := Track.ReadSamples cosg sing prim t frames_to_read
        ((List.range (frames * 2)).map (fun k =>
          if offset_frames * 2 ≤ k ∧ k < offset_frames * 2 + frames_to_read * 2 then
            r.output.getD ((k - offset_frames * 2) / 2) 0
          else 0), r.state)
      else if t.channels = 2 then
        let r := Track.ReadSamples cosg sing prim t frames_to_read
        ((List.range (frames * 2)).map (fun k =>
          if offset_frames * 2 ≤ k ∧ k < offset_frames * 2 + frames_to_read * 2 then
            r.output.getD (k - offset_frames * 2) 0
          else 0), r.state)
      else (List.replicate (frames * 2) 0, t)

/-- `MultiTrackMixer::Mix(output, frames, timeline_start_sample)`: clear the
stereo output; return silence when no tracks; scan for solo; sum every
non-skipped track's contribution; apply master volume (when it is not 1);
hard-clip every sample to `[-1, 1]`. -/
def MultiTrackMixer.Mix (cosg sing : ℚ → ℚ) (prim : List ℚ → ℕ → ℕ → ℕ → ℚ)
    (tracks : List TrackState) (frames : ℕ) (timeline_start_sample : ℤ)
    (master_volume : ℚ) : List ℚ × List TrackState :=
  if tracks.isEmpty then (List.replicate (frames * 2) 0, tracks)
  else
    let has_solo := MultiTrackMixer.hasSolo tracks
    let results := tracks.map
      (MultiTrackMixer.trackMixStep cosg sing prim has_solo frames timeline_start_sample)
    let summed := (results.map (fun p => p.1)).foldl zipAddQ
      (List.replicate (frames * 2) 0)
    let mastered := if master_volume = 1 then summed
      else summed.map (fun x => x * master_volume)
    (mastered.map (fun x => clampQ (-1) 1 x), results.map (fun p => p.2))

theorem trackMixStep_length (cosg sing : ℚ → ℚ)
    (prim : List ℚ → ℕ → ℕ → ℕ → ℚ) (has_solo : Bool) (frames : ℕ)
    (start : ℤ) (t : TrackState) :
    (MultiTrackMixer.trackMixStep cosg sing prim has_solo frames start t).1.length =
      frames * 2 := by
  unfold MultiTrackMixer.trackMixStep
  simp only [apply_ite Prod.fst, apply_ite List.length, List.length_replicate,
    List.length_map, List.length_range, ite_self]

theorem trackMixStep_skip (cosg sing : ℚ → ℚ)
    (prim : List ℚ → ℕ → ℕ → ℕ → ℚ) (has_solo : Bool) (frames : ℕ)
    (start : ℤ) (t : TrackState)
    (h : MultiTrackMixer.mixEligible has_solo t.isLoaded t.solo t.muted = false) :
    MultiTrackMixer.trackMixStep cosg sing prim has_solo frames start t =
      (List.replicate (frames * 2) 0, t) := by
  unfold MultiTrackMixer.mixEligible at h
  unfold MultiTrackMixer.trackMixStep
  cases hld : t.isLoaded <;> cases hsl : t.solo <;> cases hmt : t.muted <;>
    cases has_solo <;> simp_all

theorem zipAddQ_replicate_zero (acc : List ℚ) (n : ℕ) (h : acc.length = n) :
    zipAddQ acc (List.replicate n 0) = acc := by
  induction acc generalizing n with
  | nil => simp [zipAddQ]
  | cons x xs ih =>
      cases n with
      | zero => simp at h
      | succ m =>
          simp only [zipAddQ, List.replicate_succ, List.zipWith_cons_cons, add_zero]
          have := ih m (by simpa using h)
          unfold zipAddQ at this
          rw [this]

theorem foldl_zipAdd_length (xs : List (List ℚ)) (acc : List ℚ)
    (h : ∀ x ∈ xs, x.length = acc.length) :
    (xs.foldl zipAddQ acc).length = acc.length := by
  induction xs generalizing acc with
  | nil => rfl
  | cons x rest ih =>
      rw [List.foldl_cons]
      have hx : (zipAddQ acc x).length = acc.length := by
        simp [zipAddQ, h x (by simp)]
      rw [ih (zipAddQ acc x) (by
        intro y hy
        rw [hx]
        exact h y (by simp [hy])), hx]

theorem foldl_zipAdd_middle (xs ys : List (List ℚ)) (n : ℕ) (acc : List ℚ)
    (hacc : acc.length = n) (hxs : ∀ x ∈ xs, x.length = n) :
    ((xs ++ (List.replicate n 0) :: ys).foldl zipAddQ acc) =
      ((xs ++ ys).foldl zipAddQ acc) := by
  rw [List.foldl_append, List.foldl_append, List.foldl_cons]
  congr 1
  rw [zipAddQ_replicate_zero]
  rw [foldl_zipAdd_length xs acc (by intro x hx; rw [hacc]; exact hxs x hx), hacc]

theorem sum_contribs_skip (g : TrackState → List ℚ) (n : ℕ)
    (hg : ∀ u, (g u).length = n) (l1 l2 : List TrackState) (t : TrackState)
    (ht : g t = List.replicate n 0) :
    ((l1 ++ t :: l2).map g).foldl zipAddQ (List.replicate n 0) =
    ((l1 ++ l2).map g).foldl zipAddQ (List.replicate n 0) := by
  rw [List.map_append, List.map_cons, ht, List.map_append]
  exact foldl_zipAdd_middle (l1.map g) (l2.map g) n _ (by simp) (by
    intro x hx
    obtain ⟨u, _, hux⟩ := List.mem_map.mp hx
    rw [← hux]
    exact hg u)

theorem MultiTrackMixer.Mix_fst_of_ne_nil (cosg sing : ℚ → ℚ)
    (prim : List ℚ → ℕ → ℕ → ℕ → ℚ) (tracks : List TrackState) (frames : ℕ)
    (start : ℤ) (mv : ℚ) (h : tracks.isEmpty = false) :
    (MultiTrackMixer.Mix cosg sing prim tracks frames start mv).1 =
      (let summed := (tracks.map (fun u =>
          (MultiTrackMixer.trackMixStep cosg sing prim
            (MultiTrackMixer.hasSolo tracks) frames start u).1)).foldl
          zipAddQ (List.replicate (frames * 2) 0)
       let mastered := if mv = 1 then summed else summed.map (fun x => x * mv)
       mastered.map (fun x => clampQ (-1) 1 x)) := by
  unfold MultiTrackMixer.Mix
  rw [if_neg (by simp [h])]
  dsimp only
  rw [List.map_map]
  rfl

theorem hasSolo_append_cons (l1 l2 : List TrackState) (t : TrackState) :
    MultiTrackMixer.hasSolo (l1 ++ t :: l2) =
      (MultiTrackMixer.hasSolo l1 || (t.solo || MultiTrackMixer.hasSolo l2)) := by
  unfold MultiTrackMixer.hasSolo
  simp

/-- **C3.** Whenever at least one mixer track is soloed, `Mix` output is
unchanged by deleting any non-soloed track — it contributes nothing regardless
of its own mute state; a muted track never contributes even when soloed (the
output does not depend on anything about it beyond its solo/mute flags); a
track failing the eligibility test (loaded, passes solo gate, unmuted) is
skipped with zero contribution and is not read; and mixed-track extraction
applies the identical solo/mute resolution when choosing tracks to render. -/
theorem mixer_solo_mute_resolution (cosg sing : ℚ → ℚ)
    (prim : List ℚ → ℕ → ℕ → ℕ → ℚ) (l1 l2 : List TrackState)
    (t t' : TrackState) (frames : ℕ) (start : ℤ) (mv : ℚ) :
    (MultiTrackMixer.hasSolo (l1 ++ t :: l2) = true → t.solo = false →
      (MultiTrackMixer.Mix cosg sing prim (l1 ++ t :: l2) frames start mv).1 =
      (MultiTrackMixer.Mix cosg sing prim (l1 ++ l2) frames start mv).1) ∧
    (t.muted = true → t'.muted = true → t.solo = t'.solo →
      (MultiTrackMixer.Mix cosg sing prim (l1 ++ t :: l2) frames start mv).1 =
      (MultiTrackMixer.Mix cosg sing prim (l1 ++ t' :: l2) frames start mv).1) ∧
    (∀ hs : Bool, ∀ u : TrackState,
      MultiTrackMixer.mixEligible hs u.isLoaded u.solo u.muted = false →
      MultiTrackMixer.trackMixStep cosg sing prim hs frames start u =
        (List.replicate (frames * 2) 0, u)) ∧
    MultiTrackMixer.mixEligible = ExtractionPipeline.mixedEligible := by
  refine ⟨?_, ?_, ?_, rfl⟩
  · intro hsolo htf
    have hs_eq : MultiTrackMixer.hasSolo (l1 ++ l2) = true := by
      rw [hasSolo_append_cons, htf] at hsolo
      unfold MultiTrackMixer.hasSolo at *
      simp only [Bool.false_or] at hsolo
      simp [List.any_append]
      simpa using hsolo
    have hne2 : (l1 ++ l2).isEmpty = false := by
      cases hl : l1 ++ l2 with
      | nil => rw [hl] at hs_eq; simp [MultiTrackMixer.hasSolo] at hs_eq
      | cons a as => simp
    rw [MultiTrackMixer.Mix_fst_of_ne_nil cosg sing prim _ frames start mv (by simp),
      MultiTrackMixer.Mix_fst_of_ne_nil cosg sing prim _ frames start mv hne2]
    dsimp only
    rw [hsolo, hs_eq]
    rw [sum_contribs_skip _ (frames * 2)
      (fun u => trackMixStep_length cosg sing prim true frames start u) l1 l2 t
      (by
        rw [trackMixStep_skip cosg sing prim true frames start t
          (by simp [MultiTrackMixer.mixEligible, htf])])]
  · intro hmt hmt' hsl
    have hsolo_eq : MultiTrackMixer.hasSolo (l1 ++ t :: l2) =
        MultiTrackMixer.hasSolo (l1 ++ t' :: l2) := by
      rw [hasSolo_append_cons, hasSolo_append_cons, hsl]
    rw [MultiTrackMixer.Mix_fst_of_ne_nil cosg sing prim _ frames start mv (by simp),
      MultiTrackMixer.Mix_fst_of_ne_nil cosg sing prim _ frames start mv (by simp)]
    dsimp only
    rw [hsolo_eq]
    set hs := MultiTrackMixer.hasSolo (l1 ++ t' :: l2) with hhs
    rw [sum_contribs_skip _ (frames * 2)
      (fun u => trackMixStep_length cosg sing prim hs frames start u) l1 l2 t
      (by
        rw [trackMixStep_skip cosg sing prim hs frames start t
          (by simp [MultiTrackMixer.mixEligible, hmt])]),
      sum_contribs_skip _ (frames * 2)
      (fun u => trackMixStep_length cosg sing prim hs frames start u) l1 l2 t'
      (by
        rw [trackMixStep_skip cosg sing prim hs frames start t'
          (by simp [MultiTrackMixer.mixEligible, hmt'])])]
  · intro hs u hu
    exact trackMixStep_skip cosg sing prim hs frames start u hu

/-- Concrete soloed (unloaded) track for the mixer witness. -/
def soloTrackW : TrackState :=
  { isLoaded := false, muted := false, solo := true, channels := 2, volume := 1,
    pan := 0, pitch := 0, stretch := 1, stretchInputFraction := 0,
    startTimeSamples := 0, buffer := cbWitness }

/-- Concrete non-soloed track for the mixer witness. -/
def plainTrackW : TrackState :=
  { isLoaded := false, muted := false, solo := false, channels := 2, volume := 1,
    pan := 0, pitch := 0, stretch := 1, stretchInputFraction := 0,
    startTimeSamples := 0, buffer := cbWitness }

/-- Witness for `mixer_solo_mute_resolution`: with one soloed track present,
deleting the non-soloed track leaves the mix output unchanged. -/
theorem mixer_solo_mute_resolution_witness :
    MultiTrackMixer.hasSolo ([soloTrackW] ++ plainTrackW :: []) = true ∧
    plainTrackW.solo = false ∧
    (MultiTrackMixer.Mix (fun _ => 1) (fun _ => 1) (fun _ _ _ _ => 0)
        ([soloTrackW] ++ plainTrackW :: []) 1 0 1).1 =
      (MultiTrackMixer.Mix (fun _ => 1) (fun _ => 1) (fun _ _ _ _ => 0)
        ([soloTrackW] ++ []) 1 0 1).1 :=
  ⟨by decide, rfl,
   (mixer_solo_mute_resolution (fun _ => 1) (fun _ => 1) (fun _ _ _ _ => 0)
      [soloTrackW] [] plainTrackW plainTrackW 1 0 1).1 (by decide) rfl⟩

/-! ## TransportController (TransportController.cpp), MasterClock
(MasterClock.cpp) and the audio callback OboePlayer::onAudioReady
(OboePlayer.cpp lines 191-214) -/

/-- `PlaybackState` (TransportController.h). -/
inductive PlaybackState where
  | kStopped
  | kPlaying
  | kPaused
  | kRecording
  deriving DecidableEq

/-- `TransportController::IsPlaying`: true in `{kPlaying, kRecording}`. -/
def TransportController.IsPlaying (s : PlaybackState) : Bool :=
  s == PlaybackState.kPlaying || s == PlaybackState.kRecording

/-- `MasterClock::Advance`: `position_.fetch_add(frames)`. -/
def MasterClock.Advance (position frames : ℤ) : ℤ := position + frames

/-- State visible to the audio callback: transport state, master clock
position, mixer tracks and master volume. -/
structure PlayerState where
  transport : PlaybackState
  clockPosition : ℤ
  tracks : List TrackState
  masterVolume : ℚ

/-- `OboePlayer::onAudioReady(stream, audio_data, num_frames)`: when not
playing, fill the stereo output with silence and return, touching neither
mixer nor clock; else read the clock position, mix `num_frames` frames at it,
and advance the clock by `num_frames`. -/
def OboePlayer.onAudioReady (cosg sing : ℚ → ℚ)
    (prim : List ℚ → ℕ → ℕ → ℕ → ℚ) (st : PlayerState) (num_frames : ℕ) :
    List ℚ × PlayerState :=
  if !(TransportController.IsPlaying st.transport) then
    (List.replicate (num_frames * 2) 0, st)
  else
    let timeline_start := st.clockPosition
    let mixed := MultiTrackMixer.Mix cosg sing prim st.tracks num_frames
      timeline_start st.masterVolume
    (mixed.1,
     { st with tracks := mixed.2,
               clockPosition := MasterClock.Advance st.clockPosition (num_frames : ℤ) })

/-- **C5.** In a callback where the transport is not playing, the output is
entirely silence and neither the mixer state nor the clock position changes;
in a callback where it is playing, the mixer renders the requested frames at
the clock position read at the start of the callback and the clock then
advances by exactly that frame count. -/
theorem onAudioReady_frame_effect (cosg sing : ℚ → ℚ)
    (prim : List ℚ → ℕ → ℕ → ℕ → ℚ) (st : PlayerState) (n : ℕ) :
    (TransportController.IsPlaying st.transport = false →
      OboePlayer.onAudioReady cosg sing prim st n =
        (List.replicate (n * 2) 0, st)) ∧
    (TransportController.IsPlaying st.transport = true →
      (OboePlayer.onAudioReady cosg sing prim st n).1 =
        (MultiTrackMixer.Mix cosg sing prim st.tracks n st.clockPosition
          st.masterVolume).1 ∧
      (OboePlayer.onAudioReady cosg sing prim st n).2.clockPosition =
        MasterClock.Advance st.clockPosition (n : ℤ) ∧
      (OboePlayer.onAudioReady cosg sing prim st n).2.tracks =
        (MultiTrackMixer.Mix cosg sing prim st.tracks n st.clockPosition
          st.masterVolume).2 ∧
      (OboePlayer.onAudioReady cosg sing prim st n).2.transport = st.transport) := by
  constructor
  · intro h
    unfold OboePlayer.onAudioReady
    rw [h]
    rfl
  · intro h
    unfold OboePlayer.onAudioReady
    rw [h]
    exact ⟨rfl, rfl, rfl, rfl⟩

/-- Concrete paused player state for the callback witness. -/
def pausedPlayerW : PlayerState :=
  { transport := PlaybackState.kPaused, clockPosition := 480, tracks := [],
    masterVolume := 1 }

/-- Witness for `onAudioReady_frame_effect`: a paused callback produces pure
silence and leaves the state untouched. -/
theorem onAudioReady_frame_effect_witness :
    TransportController.IsPlaying pausedPlayerW.transport = false ∧
    OboePlayer.onAudioReady (fun _ => 1) (fun _ => 1) (fun _ _ _ _ => 0)
        pausedPlayerW 4 = (List.replicate (4 * 2) 0, pausedPlayerW) :=
  ⟨rfl,
   (onAudioReady_frame_effect (fun _ => 1) (fun _ => 1) (fun _ _ _ _ => 0)
      pausedPlayerW 4).1 rfl⟩

/-! ## Stream-recovery guard (OboePlayer.cpp, RestartStream lines 140-185 and
onErrorAfterClose lines 224-277)

Both entry points guard recovery with the same atomic
`stream_recovering_.compare_exchange_strong(expected=false, true)`; on CAS
failure they return immediately (`return false` / `return`), and every exit
path of the winner ends with `stream_recovering_.store(false)`.  The two
concurrently attempting callers (an explicit `RestartStream` and/or an
automatic `onErrorAfterClose`) are modelled as two threads running this
protocol over the shared flag, interleaved by an arbitrary schedule; the
recovery body between CAS and release is abstract, so the mutual-exclusion
invariant covers bodies of any length. -/

inductive RecoveryPc where
  | start
  | recovering
  | rejected
  | done
  deriving DecidableEq

/-- Shared flag `stream_recovering_` plus both threads' program counters. -/
structure RecoveryState where
  flag : Bool
  pc0 : RecoveryPc
  pc1 : RecoveryPc
  deriving DecidableEq

/-- Initial state: `stream_recovering_{false}` (OboePlayer.h), both callers
about to attempt recovery. -/
def recoveryInit : RecoveryState :=
  { flag := false, pc0 := RecoveryPc.start, pc1 := RecoveryPc.start }

def setPc (s : RecoveryState) (i : Bool) (p : RecoveryPc) : RecoveryState :=
  if i then { s with pc1 := p } else { s with pc0 := p }

/-- One atomic action of thread `i`: the CAS (success takes the flag and
enters recovery, failure is rejected immediately), or the final releasing
store; finished threads take no further action. -/
def recoveryStep (s : RecoveryState) (i : Bool) : RecoveryState :=
  match (if i then s.pc1 else s.pc0) with
  | RecoveryPc.start =>
      if s.flag then setPc s i RecoveryPc.rejected
      else { (setPc s i RecoveryPc.recovering) with flag := true }
  | RecoveryPc.recovering => { (setPc s i RecoveryPc.done) with flag := false }
  | RecoveryPc.rejected => s
  | RecoveryPc.done => s

/-- An arbitrary interleaving of the two threads' atomic actions. -/
def recoveryRun (sched : List Bool) : RecoveryState :=
  sched.foldl recoveryStep recoveryInit

/-- The guard invariant: the flag is set exactly while some thread is inside
the recovery section, and never are both inside. -/
def RecoveryInv (s : RecoveryState) : Prop :=
  (s.flag = true ↔
    (s.pc0 = RecoveryPc.recovering ∨ s.pc1 = RecoveryPc.recovering)) ∧
  ¬(s.pc0 = RecoveryPc.recovering ∧ s.pc1 = RecoveryPc.recovering)

instance (s : RecoveryState) : Decidable (RecoveryInv s) := by
  unfold RecoveryInv; infer_instance

theorem recoveryStep_inv (s : RecoveryState) (i : Bool) (h : RecoveryInv s) :
    RecoveryInv (recoveryStep s i) := by
  rcases s with ⟨flag, p0, p1⟩
  revert h
  cases i <;> cases flag <;> cases p0 <;> cases p1 <;> decide

theorem recoveryRun_inv (sched : List Bool) : RecoveryInv (recoveryRun sched) := by
  have key : ∀ (l : List Bool) (s : RecoveryState), RecoveryInv s →
      RecoveryInv (l.foldl recoveryStep s) := by
    intro l
    induction l with
    | nil => intro s hs; exact hs
    | cons i rest ih => intro s hs; exact ih _ (recoveryStep_inv s i hs)
  exact key sched recoveryInit (by decide)

/-- **C9.** Recovery attempts are serialized by the single CAS guard
`stream_recovering_`: under every interleaving of two concurrent attempts
(explicit restart and/or automatic post-close recovery) the two are never
simultaneously inside the recovery section; the flag is held exactly while
one runs; an attempt whose CAS executes while the other thread is recovering
is rejected in that single step, immediately and permanently (a rejected
thread takes no further action); so at most one of two overlapping attempts
runs the recovery to completion. -/
theorem restartStream_cas_guard (sched : List Bool) :
    (¬((recoveryRun sched).pc0 = RecoveryPc.recovering ∧
       (recoveryRun sched).pc1 = RecoveryPc.recovering)) ∧
    ((recoveryRun sched).flag = true ↔
      ((recoveryRun sched).pc0 = RecoveryPc.recovering ∨
       (recoveryRun sched).pc1 = RecoveryPc.recovering)) ∧
    (∀ s : RecoveryState, ∀ i : Bool, RecoveryInv s →
      (if i then s.pc1 else s.pc0) = RecoveryPc.start →
      (if i then s.pc0 else s.pc1) = RecoveryPc.recovering →
      recoveryStep s i = setPc s i RecoveryPc.rejected) ∧
    (∀ s : RecoveryState, ∀ i : Bool,
      (if i then s.pc1 else s.pc0) = RecoveryPc.rejected →
      recoveryStep s i = s) := by
  refine ⟨(recoveryRun_inv sched).2, (recoveryRun_inv sched).1, ?_, ?_⟩
  · intro s i hinv hstart hother
    rcases s with ⟨flag, p0, p1⟩
    revert hinv hstart hother
    cases i <;> cases flag <;> cases p0 <;> cases p1 <;> decide
  · intro s i hrej
    rcases s with ⟨flag, p0, p1⟩
    revert hrej
    cases i <;> cases flag <;> cases p0 <;> cases p1 <;> decide

/-- Witness for `restartStream_cas_guard`: thread 0 enters recovery, thread 1
attempts concurrently and is rejected; thread 0 then completes. -/
theorem restartStream_cas_guard_witness :
    (¬((recoveryRun [false, true, false]).pc0 = RecoveryPc.recovering ∧
       (recoveryRun [false, true, false]).pc1 = RecoveryPc.recovering)) ∧
    RecoveryInv { flag := true, pc0 := RecoveryPc.recovering,
                  pc1 := RecoveryPc.start } ∧
    recoveryStep { flag := true, pc0 := RecoveryPc.recovering,
                   pc1 := RecoveryPc.start } true =
      setPc { flag := true, pc0 := RecoveryPc.recovering,
              pc1 := RecoveryPc.start } true RecoveryPc.rejected ∧
    recoveryRun [false, true, false] =
      { flag := false, pc0 := RecoveryPc.done, pc1 := RecoveryPc.rejected } :=
  ⟨(restartStream_cas_guard [false, true, false]).1, by decide,
   (restartStream_cas_guard [false, true, false]).2.2.1
     { flag := true, pc0 := RecoveryPc.recovering, pc1 := RecoveryPc.start }
     true (by decide) (by decide) (by decide),
   by decide⟩

/-! ## Offline extraction (ExtractionPipeline.cpp)

`ExtractTrack` (lines 247-395) and `ExtractMixedTracks` (lines 397-647).
Sample values never influence the control flow settled here, so the render
step is modelled by its frame accounting; the external encoder's `Write` and
`Close` are modelled as succeeding (their failure paths are orthogonal to
cancellation).  The cancellation flag is an atomic written by another thread;
it is modelled as the Bool `cancel i` observed at the flag's i-th read (one
read per loop iteration, one at the final deletion check), monotone for a
flag that is only ever set. -/

/-- `ExtractionPipeline::kRenderBufferFrames`. -/
def kRenderBufferFrames : ℕ := 4096

/-- The fields of the C++ `OfflineTrackState` (lines 55-68) that drive the
loop control: flags, channel count, effect snapshot, decoder frame counts and
the per-state `input_frames_processed` used by mixed extraction. -/
structure OfflineTrackState where
  muted : Bool
  solo : Bool
  channels : ℕ
  tsActive : Bool
  stretch : ℚ
  fraction : ℚ
  totalFrames : ℕ
  decoderPos : ℕ
  inputProcessed : ℕ
  deriving DecidableEq

/-- `AudioDecoder::Read(buf, frames)` frame count for a well-formed decoder
of `totalFrames` frames at position `decoderPos`: `min(frames, remaining)`,
0 at EOF. -/
def decoderReadFrames (s : OfflineTrackState) (n : ℕ) : ℕ :=
  min n (s.totalFrames - s.decoderPos)

/-- `GetStretchFactor(state, include_effects)` (lines 129-134): 1.0 unless
effects are included and the state owns an active time stretcher. -/
def offlineGetStretch (include_effects : Bool) (s : OfflineTrackState) : ℚ :=
  if include_effects && s.tsActive then s.stretch else 1

/-- Frame accounting of `RenderOfflineTrack` (lines 136-221): returns
`(frames_rendered, input_frames_read, updated state)`.  Muted: zero-fill,
report `frames` for both counts, touch nothing.  Effect path: compute the
carried-fraction input demand (the fraction is stored before the EOF check),
read from the decoder, return `frames` rendered.  Direct path: read up to
`frames`, zero-pad, return the frames read. -/
def RenderOfflineTrack (include_effects : Bool) (s : OfflineTrackState)
    (frames : ℕ) : ℕ × ℕ × OfflineTrackState :=
  if frames = 0 ∨ s.channels = 0 then (0, 0, s)
  else if s.muted then (frames, frames, s)
  else
    let use_ts := include_effects && s.tsActive &&
      (s.channels == 1 || s.channels == 2)
    if use_ts then
      let demand := ExtractionPipeline.offlineStretchInputDemand frames
        s.stretch s.fraction
      let s1 := { s with fraction := demand.2 }
      let frames_read := decoderReadFrames s1 demand.1
      if frames_read = 0 then (0, 0, s1)
      else (frames, frames_read, { s1 with decoderPos := s1.decoderPos + frames_read })
    else
      let frames_read := decoderReadFrames s frames
      if frames_read = 0 then (0, 0, s)
      else (frames_read, frames_read, { s with decoderPos := s.decoderPos + frames_read })

/-- The `frames_to_render` computation of the `ExtractTrack` loop
(lines 317-331): `none` models the `remaining_output <= 0` break. -/
def ExtractTrack.framesToRender (include_effects : Bool)
    (s : OfflineTrackState) (processed : ℕ) : Option ℕ :=
  if s.totalFrames = 0 then some kRenderBufferFrames
  else
    let remaining_output : ℚ :=
      ((s.totalFrames - processed : ℕ) : ℚ) / offlineGetStretch include_effects s
    if remaining_output ≤ 0 then none
    else
      let ftr0 := sizeTCastQ (min remaining_output (kRenderBufferFrames : ℚ))
      some (if ftr0 = 0 then 1 else ftr0)

/-- The `ExtractTrack` while-loop (lines 311-370), fuel-indexed; returns
`(success, error_message, chunks_written_to_encoder, final_flag_read_index)`.
The fuel-exhaustion arm is unreachable for sufficient fuel (the loop strictly
increases `input_frames_processed` towards `total_frames` each iteration). -/
def ExtractTrack.loop (include_effects : Bool) (cancel : ℕ → Bool) :
    ℕ → ℕ → OfflineTrackState → ℕ → ℕ → Bool × String × ℕ × ℕ
  | 0, iter, _, _, chunks => (false, "fuel exhausted", chunks, iter)
  | fuel + 1, iter, s, processed, chunks =>
    if ¬(s.totalFrames = 0 ∨ processed < s.totalFrames) then
      (true, "", chunks, iter)
    else if cancel iter then (false, "Extraction cancelled", chunks, iter)
    else
      match ExtractTrack.framesToRender include_effects s processed with
      | none => (true, "", chunks, iter)
      | some frames_to_render =>
          let r := RenderOfflineTrack include_effects s frames_to_render
          if r.1 = 0 then (true, "", chunks, iter)
          else
            let processed' := processed + (if 0 < r.2.1 then r.2.1 else r.1)
            if r.1 < frames_to_render ∧ r.2.1 = 0 then (true, "", chunks + 1, iter)
            else ExtractTrack.loop include_effects cancel fuel (iter + 1)
              r.2.2 processed' (chunks + 1)

/-- Result of an extraction call: success flag, error message, chunks written
to the encoder, and whether the output file still exists afterwards. -/
structure ExtractResultModel where
  success : Bool
  error_message : String
  chunksWritten : ℕ
  fileExists : Bool
  deriving DecidableEq

/-- `ExtractionPipeline::ExtractTrack`: run the loop from the start, close
the encoder, and `std::remove` the output file iff the run did not succeed
and the cancel flag is observed set (lines 372-394). -/
def ExtractionPipeline.ExtractTrack (include_effects : Bool)
    (cancel : ℕ → Bool) (fuel : ℕ) (s : OfflineTrackState) :
    ExtractResultModel :=
  let r := ExtractTrack.loop include_effects cancel fuel 0 s 0 0
  { success := r.1, error_message := r.2.1, chunksWritten := r.2.2.1,
    fileExists := !(!r.1 && cancel r.2.2.2) }

/-- The `max_remaining_output` scan of the `ExtractMixedTracks` loop
(lines 499-524): skip ineligible states (same solo/mute gate as the mixer);
an eligible state with unknown length overwrites the maximum with the render
buffer size and stops the scan; otherwise the per-state remaining output
(remaining input over stretch) enters the running maximum. -/
def ExtractMixed.maxRemainingOutput (include_effects : Bool) (has_solo : Bool) :
    List OfflineTrackState → ℚ
  | [] => 0
  | s :: rest =>
      if ExtractionPipeline.mixedEligible has_solo true s.solo s.muted = false then
        ExtractMixed.maxRemainingOutput include_effects has_solo rest
      else if s.totalFrames = 0 then (kRenderBufferFrames : ℚ)
      else
        let remaining_input : ℚ := ((s.totalFrames - s.inputProcessed : ℕ) : ℚ)
        if remaining_input ≤ 0 then
          ExtractMixed.maxRemainingOutput include_effects has_solo rest
        else
          max (ExtractMixed.maxRemainingOutput include_effects has_solo rest)
            (remaining_input / offlineGetStretch include_effects s)

/-- The per-iteration render pass of `ExtractMixedTracks` (lines 536-569):
render every eligible state, sum (values not modelled), track
`min_frames_read` and `any_track_active`, and advance each rendering state's
`input_frames_processed`.  Returns (updated states, min_frames_read,
any_track_active). -/
def ExtractMixed.renderPass (include_effects : Bool) (has_solo : Bool)
    (frames_to_render : ℕ) :
    List OfflineTrackState → List OfflineTrackState × ℕ × Bool
  | [] => ([], frames_to_render, false)
  | s :: rest =>
      if ExtractionPipeline.mixedEligible has_solo true s.solo s.muted = false then
        let r := ExtractMixed.renderPass include_effects has_solo frames_to_render rest
        (s :: r.1, r.2.1, r.2.2)
      else
        let rr := RenderOfflineTrack include_effects s frames_to_render
        if rr.1 = 0 then
          let r := ExtractMixed.renderPass include_effects has_solo frames_to_render rest
          (rr.2.2 :: r.1, r.2.1, r.2.2)
        else
          let s' := { rr.2.2 with inputProcessed :=
            rr.2.2.inputProcessed + (if 0 < rr.2.1 then rr.2.1 else rr.1) }
          let r := ExtractMixed.renderPass include_effects has_solo frames_to_render rest
          (s' :: r.1, min r.2.1 rr.1, true)

/-- `max_input_processed` over the states (lines 595-600). -/
def ExtractMixed.maxInputProcessed (states : List OfflineTrackState) : ℕ :=
  states.foldl (fun acc s => max acc s.inputProcessed) 0

/-- The `ExtractMixedTracks` while-loop (lines 492-622), fuel-indexed;
`has_solo` and `total` (the longest track length) are computed once before
the loop (lines 470-484).  Returns the same tuple as the single-track loop. -/
def ExtractMixed.loop (include_effects : Bool) (cancel : ℕ → Bool)
    (has_solo : Bool) (total : ℕ) :
    ℕ → ℕ → List OfflineTrackState → ℕ → Bool × String × ℕ × ℕ
  | 0, iter, _, chunks => (false, "fuel exhausted", chunks, iter)
  | fuel + 1, iter, states, chunks =>
    if cancel iter then (false, "Extraction cancelled", chunks, iter)
    else
      let mro := ExtractMixed.maxRemainingOutput include_effects has_solo states
      if mro ≤ 0 then (true, "", chunks, iter)
      else
        let ftr0 := sizeTCastQ (min mro (kRenderBufferFrames : ℚ))
        let frames_to_render := if ftr0 = 0 then 1 else ftr0
        let rp := ExtractMixed.renderPass include_effects has_solo
          frames_to_render states
        if rp.2.2 = false then (true, "", chunks, iter)
        else
          let frames_rendered := rp.2.1
          if frames_rendered = 0 then (true, "", chunks, iter)
          else if frames_rendered < frames_to_render then
            (true, "", chunks + 1, iter)
          else if total ≠ 0 ∧ total ≤ ExtractMixed.maxInputProcessed rp.1 then
            (true, "", chunks + 1, iter)
          else ExtractMixed.loop include_effects cancel has_solo total fuel
            (iter + 1) rp.1 (chunks + 1)

/-- `ExtractionPipeline::ExtractMixedTracks`: compute `has_solo` and the
longest track length, run the loop, close the encoder, and delete the output
file iff the run failed with the cancel flag observed set (lines 624-646). -/
def ExtractionPipeline.ExtractMixedTracks (include_effects : Bool)
    (cancel : ℕ → Bool) (fuel : ℕ) (states : List OfflineTrackState) :
    ExtractResultModel :=
  let has_solo := states.any (fun s => s.solo)
  let total := states.foldl (fun acc s => max acc s.totalFrames) 0
  let r := ExtractMixed.loop include_effects cancel has_solo total fuel 0 states 0
  { success := r.1, error_message := r.2.1, chunksWritten := r.2.2.1,
    fileExists := !(!r.1 && cancel r.2.2.2) }

theorem extractTrack_loop_cancel (include_effects : Bool) (cancel : ℕ → Bool) :
    ∀ (fuel iter : ℕ) (s : OfflineTrackState) (processed chunks : ℕ),
      (ExtractTrack.loop include_effects cancel fuel iter s processed chunks).2.1 =
        "Extraction cancelled" →
      (ExtractTrack.loop include_effects cancel fuel iter s processed chunks).1 =
        false ∧
      cancel (ExtractTrack.loop include_effects cancel fuel iter s processed
        chunks).2.2.2 = true := by
  intro fuel
  induction fuel with
  | zero =>
      intro iter s processed chunks h
      exact absurd h (by simp [ExtractTrack.loop])
  | succ f ih =>
      intro iter s processed chunks
      rw [ExtractTrack.loop]
      by_cases h1 : ¬(s.totalFrames = 0 ∨ processed < s.totalFrames)
      · rw [if_pos h1]
        intro h
        exact absurd h (by simp)
      · rw [if_neg h1]
        by_cases h2 : cancel iter = true
        · rw [if_pos h2]
          intro _
          exact ⟨rfl, h2⟩
        · rw [if_neg h2]
          rcases hf : ExtractTrack.framesToRender include_effects s processed with
            _ | ftr
          · dsimp only
            intro h
            exact absurd h (by simp)
          · dsimp only
            by_cases h3 : (RenderOfflineTrack include_effects s ftr).1 = 0
            · rw [if_pos h3]
              intro h
              exact absurd h (by simp)
            · rw [if_neg h3]
              by_cases h4 : (RenderOfflineTrack include_effects s ftr).1 < ftr ∧
                  (RenderOfflineTrack include_effects s ftr).2.1 = 0
              · rw [if_pos h4]
                intro h
                exact absurd h (by simp)
              · rw [if_neg h4]
                exact ih (iter + 1) _ _ (chunks + 1)

theorem extractTrack_loop_chunks (include_effects : Bool) (cancel : ℕ → Bool)
    (k : ℕ) (hk : cancel k = true) :
    ∀ (fuel iter : ℕ) (s : OfflineTrackState) (processed chunks : ℕ),
      iter ≤ k →
      (ExtractTrack.loop include_effects cancel fuel iter s processed
        chunks).2.2.1 ≤ chunks + (k - iter) := by
  intro fuel
  induction fuel with
  | zero =>
      intro iter s processed chunks hle
      simp [ExtractTrack.loop]
  | succ f ih =>
      intro iter s processed chunks hle
      rw [ExtractTrack.loop]
      by_cases h1 : ¬(s.totalFrames = 0 ∨ processed < s.totalFrames)
      · rw [if_pos h1]
        simp
      · rw [if_neg h1]
        by_cases h2 : cancel iter = true
        · rw [if_pos h2]
          simp
        · rw [if_neg h2]
          have hiter : iter < k := by
            rcases Nat.lt_or_ge iter k with h | h
            · exact h
            · have : iter = k := by omega
              rw [this] at h2
              exact absurd hk h2
          rcases hf : ExtractTrack.framesToRender include_effects s processed with
            _ | ftr
          · simp
          · dsimp only
            by_cases h3 : (RenderOfflineTrack include_effects s ftr).1 = 0
            · rw [if_pos h3]
              simp
            · rw [if_neg h3]
              by_cases h4 : (RenderOfflineTrack include_effects s ftr).1 < ftr ∧
                  (RenderOfflineTrack include_effects s ftr).2.1 = 0
              · rw [if_pos h4]
                simp
                omega
              · rw [if_neg h4]
                have := ih (iter + 1) (RenderOfflineTrack include_effects s ftr).2.2
                  (processed + (if 0 < (RenderOfflineTrack include_effects s ftr).2.1
                    then (RenderOfflineTrack include_effects s ftr).2.1
                    else (RenderOfflineTrack include_effects s ftr).1))
                  (chunks + 1) (by omega)
                omega

theorem extractMixed_loop_cancel (include_effects : Bool) (cancel : ℕ → Bool)
    (has_solo : Bool) (total : ℕ) :
    ∀ (fuel iter : ℕ) (states : List OfflineTrackState) (chunks : ℕ),
      (ExtractMixed.loop include_effects cancel has_solo total fuel iter states
        chunks).2.1 = "Extraction cancelled" →
      (ExtractMixed.loop include_effects cancel has_solo total fuel iter states
        chunks).1 = false ∧
      cancel (ExtractMixed.loop include_effects cancel has_solo total fuel iter
        states chunks).2.2.2 = true := by
  intro fuel
  induction fuel with
  | zero =>
      intro iter states chunks h
      exact absurd h (by simp [ExtractMixed.loop])
  | succ f ih =>
      intro iter states chunks
      rw [ExtractMixed.loop]
      by_cases h2 : cancel iter = true
      · rw [if_pos h2]
        intro _
        exact ⟨rfl, h2⟩
      · rw [if_neg h2]
        by_cases h1 : ExtractMixed.maxRemainingOutput include_effects has_solo
            states ≤ 0
        · rw [if_pos h1]
          intro h
          exact absurd h (by simp)
        · rw [if_neg h1]
          dsimp only
          set ftr := (if sizeTCastQ ((ExtractMixed.maxRemainingOutput
                include_effects has_solo states) ⊓ ((kRenderBufferFrames : ℕ) : ℚ)) = 0
              then 1
              else sizeTCastQ ((ExtractMixed.maxRemainingOutput include_effects
                has_solo states) ⊓ ((kRenderBufferFrames : ℕ) : ℚ))) with hftr
          set rp := ExtractMixed.renderPass include_effects has_solo ftr states
            with hrp
          by_cases h3 : rp.2.2 = false
          · rw [if_pos h3]
            intro h
            exact absurd h (by simp)
          · rw [if_neg h3]
            by_cases h4 : rp.2.1 = 0
            · rw [if_pos h4]
              intro h
              exact absurd h (by simp)
            · rw [if_neg h4]
              by_cases h5 : rp.2.1 < ftr
              · rw [if_pos h5]
                intro h
                exact absurd h (by simp)
              · rw [if_neg h5]
                by_cases h6 : total ≠ 0 ∧ total ≤ ExtractMixed.maxInputProcessed rp.1
                · rw [if_pos h6]
                  intro h
                  exact absurd h (by simp)
                · rw [if_neg h6]
                  exact ih (iter + 1) rp.1 (chunks + 1)

theorem extractMixed_loop_chunks (include_effects : Bool) (cancel : ℕ → Bool)
    (has_solo : Bool) (total : ℕ) (k : ℕ) (hk : cancel k = true) :
    ∀ (fuel iter : ℕ) (states : List OfflineTrackState) (chunks : ℕ),
      iter ≤ k →
      (ExtractMixed.loop include_effects cancel has_solo total fuel iter states
        chunks).2.2.1 ≤ chunks + (k - iter) := by
  intro fuel
  induction fuel with
  | zero =>
      intro iter states chunks hle
      simp [ExtractMixed.loop]
  | succ f ih =>
      intro iter states chunks hle
      rw [ExtractMixed.loop]
      by_cases h2 : cancel iter = true
      · rw [if_pos h2]
        simp
      · rw [if_neg h2]
        have hiter : iter < k := by
          rcases Nat.lt_or_ge iter k with h | h
          · exact h
          · have : iter = k := by omega
            rw [this] at h2
            exact absurd hk h2
        by_cases h1 : ExtractMixed.maxRemainingOutput include_effects has_solo
            states ≤ 0
        · rw [if_pos h1]
          simp
        · rw [if_neg h1]
          dsimp only
          set ftr := (if sizeTCastQ ((ExtractMixed.maxRemainingOutput
                include_effects has_solo states) ⊓ ((kRenderBufferFrames : ℕ) : ℚ)) = 0
              then 1
              else sizeTCastQ ((ExtractMixed.maxRemainingOutput include_effects
                has_solo states) ⊓ ((kRenderBufferFrames : ℕ) : ℚ))) with hftr
          set rp := ExtractMixed.renderPass include_effects has_solo ftr states
            with hrp
          by_cases h3 : rp.2.2 = false
          · rw [if_pos h3]
            simp
          · rw [if_neg h3]
            by_cases h4 : rp.2.1 = 0
            · rw [if_pos h4]
              simp
            · rw [if_neg h4]
              by_cases h5 : rp.2.1 < ftr
              · rw [if_pos h5]
                simp
                omega
              · rw [if_neg h5]
                by_cases h6 : total ≠ 0 ∧ total ≤ ExtractMixed.maxInputProcessed rp.1
                · rw [if_pos h6]
                  simp
                  omega
                · rw [if_neg h6]
                  have := ih (iter + 1) rp.1 (chunks + 1) (by omega)
                  omega

/-- **C6.** Both extraction paths read the cancellation flag at the top of
every loop iteration, so when the flag is set at read `k`, at most `k` chunks
are ever written; any run that reports "Extraction cancelled" has failed and
its partial output file was deleted; and a run whose flag is already set at
the first iteration stops immediately: it fails with "Extraction cancelled",
writes nothing, and leaves no output file.  (Stated for the single-track and
the mixed-track pipeline.) -/
theorem extraction_cancellation (include_effects : Bool) (cancel : ℕ → Bool)
    (fuel : ℕ) (s : OfflineTrackState) (states : List OfflineTrackState) :
    (∀ k, cancel k = true →
      (ExtractionPipeline.ExtractTrack include_effects cancel fuel
        s).chunksWritten ≤ k) ∧
    ((ExtractionPipeline.ExtractTrack include_effects cancel fuel
        s).error_message = "Extraction cancelled" →
      (ExtractionPipeline.ExtractTrack include_effects cancel fuel s).success =
        false ∧
      (ExtractionPipeline.ExtractTrack include_effects cancel fuel
        s).fileExists = false) ∧
    (cancel 0 = true → 1 ≤ fuel → 1 ≤ s.totalFrames →
      ExtractionPipeline.ExtractTrack include_effects cancel fuel s =
        { success := false, error_message := "Extraction cancelled",
          chunksWritten := 0, fileExists := false }) ∧
    (∀ k, cancel k = true →
      (ExtractionPipeline.ExtractMixedTracks include_effects cancel fuel
        states).chunksWritten ≤ k) ∧
    ((ExtractionPipeline.ExtractMixedTracks include_effects cancel fuel
        states).error_message = "Extraction cancelled" →
      (ExtractionPipeline.ExtractMixedTracks include_effects cancel fuel
        states).success = false ∧
      (ExtractionPipeline.ExtractMixedTracks include_effects cancel fuel
        states).fileExists = false) ∧
    (cancel 0 = true → 1 ≤ fuel →
      ExtractionPipeline.ExtractMixedTracks include_effects cancel fuel states =
        { success := false, error_message := "Extraction cancelled",
          chunksWritten := 0, fileExists := false }) := by
  refine ⟨?_, ?_, ?_, ?_, ?_, ?_⟩
  · intro k hk
    have := extractTrack_loop_chunks include_effects cancel k hk fuel 0 s 0 0
      (Nat.zero_le k)
    unfold ExtractionPipeline.ExtractTrack
    dsimp only
    omega
  · intro hmsg
    unfold ExtractionPipeline.ExtractTrack at hmsg ⊢
    dsimp only at hmsg ⊢
    obtain ⟨hsucc, hcend⟩ :=
      extractTrack_loop_cancel include_effects cancel fuel 0 s 0 0 hmsg
    refine ⟨hsucc, ?_⟩
    rw [hsucc, hcend]
    rfl
  · intro hc0 hfuel htot
    obtain ⟨f, rfl⟩ : ∃ f, fuel = f + 1 := ⟨fuel - 1, by omega⟩
    unfold ExtractionPipeline.ExtractTrack
    rw [ExtractTrack.loop, if_neg (by omega), if_pos hc0]
    dsimp only
    rw [hc0]
    rfl
  · intro k hk
    have := extractMixed_loop_chunks include_effects cancel
      (states.any (fun u => u.solo))
      (states.foldl (fun acc u => max acc u.totalFrames) 0) k hk fuel 0 states 0
      (Nat.zero_le k)
    unfold ExtractionPipeline.ExtractMixedTracks
    dsimp only
    omega
  · intro hmsg
    unfold ExtractionPipeline.ExtractMixedTracks at hmsg ⊢
    dsimp only at hmsg ⊢
    obtain ⟨hsucc, hcend⟩ := extractMixed_loop_cancel include_effects cancel
      (states.any (fun u => u.solo))
      (states.foldl (fun acc u => max acc u.totalFrames) 0) fuel 0 states 0 hmsg
    refine ⟨hsucc, ?_⟩
    rw [hsucc, hcend]
    rfl
  · intro hc0 hfuel
    obtain ⟨f, rfl⟩ : ∃ f, fuel = f + 1 := ⟨fuel - 1, by omega⟩
    unfold ExtractionPipeline.ExtractMixedTracks
    dsimp only
    rw [ExtractMixed.loop, if_pos hc0]
    dsimp only
    rw [hc0]
    rfl

/-- Concrete offline state for the cancellation witness: an unmuted mono
track of 5 frames, flag set from the start. -/
def cancelledOfflineW : OfflineTrackState :=
  { muted := false, solo := false, channels := 1, tsActive := false,
    stretch := 1, fraction := 0, totalFrames := 5, decoderPos := 0,
    inputProcessed := 0 }

/-- Witness for `extraction_cancellation`: with the flag set before the first
iteration, both pipelines report cancellation, write nothing, and leave no
file. -/
theorem extraction_cancellation_witness :
    (fun _ : ℕ => true) 0 = true ∧ 1 ≤ 3 ∧ 1 ≤ cancelledOfflineW.totalFrames ∧
    ExtractionPipeline.ExtractTrack false (fun _ => true) 3 cancelledOfflineW =
      { success := false, error_message := "Extraction cancelled",
        chunksWritten := 0, fileExists := false } ∧
    ExtractionPipeline.ExtractMixedTracks false (fun _ => true) 3
        [cancelledOfflineW] =
      { success := false, error_message := "Extraction cancelled",
        chunksWritten := 0, fileExists := false } :=
  ⟨rfl, by decide, by decide,
   (extraction_cancellation false (fun _ => true) 3 cancelledOfflineW
      [cancelledOfflineW]).2.2.1 rfl (by decide) (by decide),
   (extraction_cancellation false (fun _ => true) 3 cancelledOfflineW
      [cancelledOfflineW]).2.2.2.2.2 rfl (by decide)⟩
